import Mathlib

/-!
Verification of the TriglavTactician chess engine core against its specification.

The C++ sources are shallowly embedded: 64-bit words (`U64`) become `Nat` with
explicit truncation modulo `2 ^ 64` wherever the C arithmetic can wrap, arrays
become `List Nat`, and the pointer-walking FEN parser becomes a fuelled
recursion over a `List Char`.
-/

set_option maxRecDepth 10000

namespace Triglav

/-- The number of values of a 64-bit unsigned word (`U64` of chess_utils.h). -/
def U64SIZE : Nat := 2 ^ 64

/-- Truncating left shift: the semantics of `x << n` on `U64`. -/
def shl (x n : Nat) : Nat := (x <<< n) % U64SIZE

/-- Bitwise complement on a 64-bit word: the semantics of `~x` on `U64`
(for `x < 2 ^ 64`, xor with the all-ones word). -/
def lnot (x : Nat) : Nat := x ^^^ (U64SIZE - 1)

/-- chess_utils.h `set_bit`: `bitboard |= (1ULL << square)`. -/
def set_bit (bb square : Nat) : Nat := bb ||| shl 1 square

/-- chess_utils.h `get_bit`: `bitboard & (1ULL << square)` as a Bool. -/
def get_bit (bb square : Nat) : Bool := bb &&& shl 1 square != 0

/-- chess_utils.h `pop_bit`: `bitboard &= ~(1ULL << square)`. -/
def pop_bit (bb square : Nat) : Nat := bb &&& lnot (shl 1 square)

/-- Count of low-order zero bits with explicit fuel (64 suffices for a `U64`). -/
def bsfAux : Nat → Nat → Nat
  | 0, _ => 0
  | fuel + 1, bb => if bb % 2 = 1 then 0 else bsfAux fuel (bb / 2) + 1

/-- chess_utils.cpp `bitScanForward`: index of the least significant set bit
(the C build uses the ctz builtin; a zero input is excluded by an assert there). -/
def bitScanForward (bb : Nat) : Nat := bsfAux 64 bb

/-- Index of the highest set bit with explicit fuel (64 suffices for a `U64`). -/
def bsrAux : Nat → Nat → Nat
  | 0, _ => 0
  | fuel + 1, bb => if 2 ≤ bb then bsrAux fuel (bb / 2) + 1 else 0

/-- chess_utils.cpp `bitScanReverse`: index of the most significant set bit
(`63 - clz` in the C build). -/
def bitScanReverse (bb : Nat) : Nat := bsrAux 64 bb

-- File masks of chess_utils.h.
def NOT_FILE_A : Nat := 18374403900871474942
def NOT_FILE_H : Nat := 9187201950435737471
def NOT_FILE_HG : Nat := 4557430888798830399
def NOT_FILE_AB : Nat := 18229723555195321596

/-- chess_utils.cpp `initGenerateRays`, expressed as a function from direction
(0 UP, 1 DOWN, 2 LEFT, 3 RIGHT, 4 UPLEFT, 5 UPRIGHT, 6 DOWNLEFT, 7 DOWNRIGHT)
and square to the precomputed ray bitboard.  The diagonal masks are shifted into
place by the same per-column iteration as the source loops. -/
def rays (dir square : Nat) : Nat :=
  let row := square / 8
  let col := square % 8
  if dir = 0 then 0x0080808080808080 >>> (63 - square)
  else if dir = 1 then shl 0x0101010101010100 square
  else if dir = 2 then shl 1 square - shl 1 (square &&& 56)
  else if dir = 3 then (2 * (shl 1 (square ||| 7) - shl 1 square)) % U64SIZE
  else if dir = 4 then
    ((fun m => (m >>> 1) &&& NOT_FILE_H)^[7 - col] 0x40201008040201) >>> ((7 - row) * 8)
  else if dir = 5 then
    ((fun m => shl m 1 &&& NOT_FILE_A)^[col] 0x2040810204080) >>> ((7 - row) * 8)
  else if dir = 6 then
    shl ((fun m => (m >>> 1) &&& NOT_FILE_H)^[7 - col] 0x102040810204000) (row * 8)
  else
    shl ((fun m => shl m 1 &&& NOT_FILE_A)^[col] 0x8040201008040200) (row * 8)

/-- chess_utils.cpp `generatePawnAttacks`. -/
def pawn_attacks (color square : Nat) : Nat :=
  let b := shl 1 square
  if color = 0 then
    (if (b >>> 7) &&& NOT_FILE_A ≠ 0 then b >>> 7 else 0) |||
    (if (b >>> 9) &&& NOT_FILE_H ≠ 0 then b >>> 9 else 0)
  else
    (if shl b 7 &&& NOT_FILE_H ≠ 0 then shl b 7 else 0) |||
    (if shl b 9 &&& NOT_FILE_A ≠ 0 then shl b 9 else 0)

/-- chess_utils.cpp `generateKingAttacks`. -/
def king_attacks (square : Nat) : Nat :=
  let b := shl 1 square
  (if b >>> 8 ≠ 0 then b >>> 8 else 0) |||
  (if (b >>> 9) &&& NOT_FILE_H ≠ 0 then b >>> 9 else 0) |||
  (if (b >>> 7) &&& NOT_FILE_A ≠ 0 then b >>> 7 else 0) |||
  (if (b >>> 1) &&& NOT_FILE_H ≠ 0 then b >>> 1 else 0) |||
  (if shl b 8 ≠ 0 then shl b 8 else 0) |||
  (if shl b 9 &&& NOT_FILE_A ≠ 0 then shl b 9 else 0) |||
  (if shl b 7 &&& NOT_FILE_H ≠ 0 then shl b 7 else 0) |||
  (if shl b 1 &&& NOT_FILE_A ≠ 0 then shl b 1 else 0)

/-- chess_utils.cpp `generateKnightAttacks`. -/
def knight_attacks (square : Nat) : Nat :=
  let b := shl 1 square
  (if (b >>> 17) &&& NOT_FILE_H ≠ 0 then b >>> 17 else 0) |||
  (if (b >>> 15) &&& NOT_FILE_A ≠ 0 then b >>> 15 else 0) |||
  (if (b >>> 10) &&& NOT_FILE_HG ≠ 0 then b >>> 10 else 0) |||
  (if (b >>> 6) &&& NOT_FILE_AB ≠ 0 then b >>> 6 else 0) |||
  (if shl b 17 &&& NOT_FILE_A ≠ 0 then shl b 17 else 0) |||
  (if shl b 15 &&& NOT_FILE_H ≠ 0 then shl b 15 else 0) |||
  (if shl b 10 &&& NOT_FILE_AB ≠ 0 then shl b 10 else 0) |||
  (if shl b 6 &&& NOT_FILE_HG ≠ 0 then shl b 6 else 0)

/-- One direction block of `getBishopMoves` / `getRooksMoves` in chess_utils.cpp:
OR in the ray from the square and, if the ray meets a blocker, clear everything
past the nearest one, located with bitScanReverse (`useRev = true`) or
bitScanForward. -/
def sliderDirStep (blockers : Nat) (useRev : Bool) (dir square att : Nat) : Nat :=
  let att2 := att ||| rays dir square
  if rays dir square &&& blockers ≠ 0 then
    att2 &&& lnot (rays dir
      ((if useRev then bitScanReverse else bitScanForward) (rays dir square &&& blockers)))
  else att2

/-- chess_utils.cpp `getBishopMoves`: UPLEFT (bsr), UPRIGHT (bsr), DOWNRIGHT (bsf),
DOWNLEFT (bsf), processed in this order. -/
def getBishopMoves (square blockers : Nat) : Nat :=
  sliderDirStep blockers false 6 square
    (sliderDirStep blockers false 7 square
      (sliderDirStep blockers true 5 square
        (sliderDirStep blockers true 4 square 0)))

/-- chess_utils.cpp `getRooksMoves`: UP (bsr), DOWN (bsf), RIGHT (bsf), LEFT (bsr),
processed in this order. -/
def getRooksMoves (square blockers : Nat) : Nat :=
  sliderDirStep blockers true 2 square
    (sliderDirStep blockers false 3 square
      (sliderDirStep blockers false 1 square
        (sliderDirStep blockers true 0 square 0)))

/-- chess_utils.cpp `getQueensMoves`. -/
def getQueensMoves (square blockers : Nat) : Nat :=
  getRooksMoves square blockers ||| getBishopMoves square blockers

/-- chess_board.h `ChessBoard`: twelve piece bitboards (WP, WN, WB, WR, WQ, WK,
BP, BN, BB, BR, BQ, BK), three occupancies (white, black, both), the single-slot
snapshot copies, the flags and the move counter.  Arrays become Lists indexed as
the C enums. -/
structure ChessBoard where
  bitboards : List Nat
  occupancy : List Nat
  bitboards_copy : List Nat
  occupancy_copy : List Nat
  color : Nat
  color_copy : Nat
  enpassant : Nat
  enpassant_copy : Nat
  castling : Nat
  castling_copy : Nat
  num_moves : Nat
deriving DecidableEq, Repr

/-- chess_board.cpp `ChessBoard::copyBoard`. -/
def copyBoard (b : ChessBoard) : ChessBoard :=
  { b with bitboards_copy := b.bitboards, occupancy_copy := b.occupancy,
           color_copy := b.color, enpassant_copy := b.enpassant,
           castling_copy := b.castling }

/-- chess_board.cpp `ChessBoard::revertBoard`. -/
def revertBoard (b : ChessBoard) : ChessBoard :=
  { b with bitboards := b.bitboards_copy, occupancy := b.occupancy_copy,
           color := b.color_copy, enpassant := b.enpassant_copy,
           castling := b.castling_copy }

/-- chess_board.cpp `ChessBoard::resetBoard` (`no_sq` is 64, `both` is 2). -/
def resetBoard : ChessBoard :=
  { bitboards := List.replicate 12 0, occupancy := List.replicate 3 0,
    bitboards_copy := List.replicate 12 0, occupancy_copy := List.replicate 3 0,
    color := 0, color_copy := 2, enpassant := 64, enpassant_copy := 64,
    castling := 0, castling_copy := 0, num_moves := 0 }

/-- chess_board.cpp `ChessBoard::isSquareAttacked`. -/
def isSquareAttacked (b : ChessBoard) (square color : Nat) : Bool :=
  ((if color = 0 then pawn_attacks 1 square &&& b.bitboards.getD 0 0
    else pawn_attacks 0 square &&& b.bitboards.getD 6 0) != 0) ||
  ((knight_attacks square &&&
    (if color = 0 then b.bitboards.getD 1 0 else b.bitboards.getD 7 0)) != 0) ||
  ((getBishopMoves square (b.occupancy.getD 2 0) &&&
    (if color = 0 then b.bitboards.getD 2 0 else b.bitboards.getD 8 0)) != 0) ||
  ((getRooksMoves square (b.occupancy.getD 2 0) &&&
    (if color = 0 then b.bitboards.getD 3 0 else b.bitboards.getD 9 0)) != 0) ||
  ((getQueensMoves square (b.occupancy.getD 2 0) &&&
    (if color = 0 then b.bitboards.getD 4 0 else b.bitboards.getD 10 0)) != 0) ||
  ((king_attacks square &&&
    (if color = 0 then b.bitboards.getD 5 0 else b.bitboards.getD 11 0)) != 0)

/-- chess_board.cpp `ChessBoard::isThereCheck`. -/
def isThereCheck (b : ChessBoard) (color : Nat) : Bool :=
  isSquareAttacked b
    (if color = 0 then bitScanForward (b.bitboards.getD 5 0)
     else bitScanForward (b.bitboards.getD 11 0)) (color ^^^ 1)

-- ==== Move encoding (chess_moves.h) ====

def get_move_source (move : Nat) : Nat := move &&& 0x3f
def get_move_target (move : Nat) : Nat := (move &&& 0xfc0) >>> 6
def get_move_piece (move : Nat) : Nat := (move &&& 0xf000) >>> 12
def get_move_promoted (move : Nat) : Nat := (move &&& 0xf0000) >>> 16
def get_move_capture (move : Nat) : Nat := move &&& 0x100000
def get_move_double (move : Nat) : Nat := move &&& 0x200000
def get_move_enpassant (move : Nat) : Nat := move &&& 0x400000
def get_move_castling (move : Nat) : Nat := move &&& 0x800000

/-- chess_moves.h `encode_move`. -/
def encode_move (f t piece promoted capture double_p enpassant castling : Nat) : Nat :=
  f ||| (t <<< 6) ||| (piece <<< 12) ||| (promoted <<< 16) ||| (capture <<< 20) |||
  (double_p <<< 21) ||| (enpassant <<< 22) ||| (castling <<< 23)

-- ==== MakeMove (chess_game.cpp) ====

/-- chess_utils.h `CASTLING_RIGHTS` lookup table. -/
def CASTLING_RIGHTS : List Nat :=
  [7, 15, 15, 15, 3, 15, 15, 11,
   15, 15, 15, 15, 15, 15, 15, 15,
   15, 15, 15, 15, 15, 15, 15, 15,
   15, 15, 15, 15, 15, 15, 15, 15,
   15, 15, 15, 15, 15, 15, 15, 15,
   15, 15, 15, 15, 15, 15, 15, 15,
   15, 15, 15, 15, 15, 15, 15, 15,
   13, 15, 15, 15, 12, 15, 15, 14]

/-- `pop_bit` on entry `p` of a bitboard array. -/
def bbPop (bbs : List Nat) (p sq : Nat) : List Nat :=
  bbs.set p (pop_bit (bbs.getD p 0) sq)

/-- `set_bit` on entry `p` of a bitboard array. -/
def bbSet (bbs : List Nat) (p sq : Nat) : List Nat :=
  bbs.set p (set_bit (bbs.getD p 0) sq)

/-- The capture block of `ChessGame::MakeMove`: pop the first opponent bitboard in
`range .. range+5` holding a bit on the target square. -/
def captureUpdate (bbs : List Nat) (range to_square : Nat) : List Nat :=
  match (List.range 6).find? (fun i => get_bit (bbs.getD (range + i) 0) to_square) with
  | some i => bbPop bbs (range + i) to_square
  | none => bbs

/-- The occupancy rebuild loops of `MakeMove` and `parseFEN`: OR of the six piece
bitboards starting at index `lo`. -/
def occUnion (bbs : List Nat) (lo : Nat) : Nat :=
  (List.range 6).foldl (fun acc i => acc ||| bbs.getD (lo + i) 0) 0

/-- The mover's color as `ChessGame::MakeMove` computes it (line 33). -/
def moverColor (move : Nat) : Nat := if get_move_piece move < 6 then 0 else 1

/-- Lines 15-105 of `ChessGame::MakeMove`: snapshot, all bitboard updates, the
castling-rights update, and the occupancy rebuild — the board state at the point of
the legality check.  The intermediate occupancy writes of lines 34-47 are omitted
because lines 93-105 rebuild all three occupancies from the piece bitboards before
anything reads them. -/
def makeMoveMid (g : ChessBoard) (move : Nat) : ChessBoard :=
  let b := copyBoard g
  let from_square := get_move_source move
  let to_square := get_move_target move
  let piece := get_move_piece move
  let promoted := get_move_promoted move
  let capture := get_move_capture move
  let ep_flag := get_move_enpassant move
  let castle_flag := get_move_castling move
  let color := moverColor move
  let bbs := bbSet (bbPop b.bitboards piece from_square) piece to_square
  let bbs := if capture ≠ 0 then captureUpdate bbs (if color = 0 then 6 else 0) to_square else bbs
  let bbs := if promoted ≠ 0 then bbSet (bbPop bbs piece to_square) promoted to_square else bbs
  let bbs := if ep_flag ≠ 0 then
      (if color = 0 then bbPop bbs 6 (to_square + 8) else bbPop bbs 0 (to_square - 8))
    else bbs
  let enp1 := if ep_flag ≠ 0 then 64 else b.enpassant
  let bbs := if castle_flag ≠ 0 then
      (if to_square = 62 then bbSet (bbPop bbs 3 63) 3 61
       else if to_square = 58 then bbSet (bbPop bbs 3 56) 3 59
       else if to_square = 6 then bbSet (bbPop bbs 9 7) 9 5
       else if to_square = 2 then bbSet (bbPop bbs 9 0) 9 3
       else bbs)
    else bbs
  let cast := b.castling &&& CASTLING_RIGHTS.getD from_square 0 &&& CASTLING_RIGHTS.getD to_square 0
  let occW := occUnion bbs 0
  let occB := occUnion bbs 6
  { b with bitboards := bbs, occupancy := [occW, occB, occW ||| occB],
           castling := cast, enpassant := enp1 }

/-- chess_game.cpp `ChessGame::MakeMove`, returning the accepted flag and the board
after the call: legality check on the mid state, snapshot restore on rejection,
en-passant/side/counter updates on acceptance. -/
def MakeMove (g : ChessBoard) (move : Nat) : Bool × ChessBoard :=
  let b2 := makeMoveMid g move
  let color := moverColor move
  if isThereCheck b2 color then (false, revertBoard b2)
  else (true,
    { b2 with
      enpassant := if get_move_double move ≠ 0 then
                     (if color = 0 then get_move_source move - 8 else get_move_source move + 8)
                   else 64,
      color := b2.color ^^^ 1,
      num_moves := b2.num_moves + 1 })

-- ==== parseFEN (chess_board.cpp) ====

/-- chess_utils.cpp `charToPieceEnum` (12 is the `EMPTY` sentinel). -/
def charToPieceEnum (c : Char) : Nat :=
  if c = 'P' then 0 else if c = 'N' then 1 else if c = 'B' then 2
  else if c = 'R' then 3 else if c = 'Q' then 4 else if c = 'K' then 5
  else if c = 'p' then 6 else if c = 'n' then 7 else if c = 'b' then 8
  else if c = 'r' then 9 else if c = 'q' then 10 else if c = 'k' then 11
  else 12

/-- The letter test of chess_board.cpp line 91. -/
def isFenLetter (c : Char) : Bool := ('a' ≤ c && c ≤ 'z') || ('A' ≤ c && c ≤ 'Z')

/-- The digit test of chess_board.cpp line 103. -/
def isFenDigit (c : Char) : Bool := '0' ≤ c && c ≤ '9'

/-- One body of the file loop in `ChessBoard::parseFEN` (lines 86-134): returns the
updated bitboards, the file counter after the trailing `file++`, and the remaining
input. -/
def fenSquareStep (bbs : List Nat) (rank : Nat) (file : Int) (fen : List Char) :
    List Nat × Int × List Char :=
  let square := ((rank : Int) * 8 + file).toNat
  let s1 : List Nat × List Char :=
    match fen with
    | c :: rest => if isFenLetter c then (bbSet bbs (charToPieceEnum c) square, rest)
                   else (bbs, c :: rest)
    | [] => (bbs, [])
  let bbs2 := s1.1
  let s2 : Int × List Char :=
    match s1.2 with
    | c :: rest =>
      if isFenDigit c then
        let offset : Int := (c.toNat : Int) - ('0'.toNat : Int)
        let piece : Int := (List.range 12).foldl
          (fun acc p => if get_bit (bbs2.getD p 0) square then (p : Int) else acc) (-1)
        ((if piece = -1 then file - 1 else file) + offset, rest)
      else (file, c :: rest)
    | [] => (file, [])
  let fen3 :=
    match s2.2 with
    | c :: rest => if c = '/' then rest else c :: rest
    | [] => ([] : List Char)
  (bbs2, s2.1 + 1, fen3)

/-- The file loop of `parseFEN`, with fuel bounding the number of iterations (each
iteration of the C loop advances the input or the file counter, so any fuel at
least `fen.length + 16` reproduces the loop exactly). -/
def fenFileLoop : Nat → List Nat → Nat → Int → List Char → List Nat × List Char
  | 0, bbs, _, _, fen => (bbs, fen)
  | fuel + 1, bbs, rank, file, fen =>
    if file < 8 then
      let st := fenSquareStep bbs rank file fen
      fenFileLoop fuel st.1 rank st.2.1 st.2.2
    else (bbs, fen)

/-- The rank loop of `parseFEN`: ranks `0..7`, counted down by the first argument. -/
def fenRanks : Nat → List Nat → List Char → List Nat × List Char
  | 0, bbs, fen => (bbs, fen)
  | n + 1, bbs, fen =>
    let st := fenFileLoop (fen.length + 16) bbs (8 - (n + 1)) 0 fen
    fenRanks n st.1 st.2

/-- The castling-rights loop of `parseFEN` (lines 147-167), consuming characters up
to the next space. -/
def fenCastlingLoop : List Char → Nat → Nat × List Char
  | [], cast => (cast, [])
  | c :: rest, cast =>
    if c = ' ' then (cast, c :: rest)
    else fenCastlingLoop rest (cast |||
      (if c = 'K' then 1 else if c = 'Q' then 2 else if c = 'k' then 4
       else if c = 'q' then 8 else 0))

/-- chess_board.cpp `ChessBoard::parseFEN`.  The C pointer walk is modelled on a
list of characters; reading past the end of the input (undefined in C via the
terminating NUL) stops the walk. -/
def parseFEN (fen : List Char) : ChessBoard :=
  let b := resetBoard
  let pl := fenRanks 8 b.bitboards fen
  let bbs := pl.1
  let r1 := pl.2.drop 1
  let color : Nat := if r1.headD ' ' = 'w' then 0 else 1
  let r2 := r1.drop 2
  let cl := fenCastlingLoop r2 0
  let cast := cl.1
  let r3 := cl.2.drop 1
  let enp : Nat :=
    match r3 with
    | c0 :: c1 :: _ =>
      if c0 ≠ '-' then
        ((((8 : Int) - ((c1.toNat : Int) - ('0'.toNat : Int))) * 8 +
          ((c0.toNat : Int) - ('a'.toNat : Int)))).toNat
      else 64
    | _ => 64
  let occW := occUnion bbs 0
  let occB := occUnion bbs 6
  { b with bitboards := bbs, color := color, castling := cast, enpassant := enp,
           occupancy := [occW, occB, occW ||| occB] }

-- ==== Move generation (chess_moves.cpp) ====

/-- The increasing list of set-bit indices of a bitboard: the visiting order of the
`while (bitboard) { bitScanForward; ...; pop_bit }` loops of chess_moves.cpp. -/
def bbSquares (bb : Nat) : List Nat :=
  (List.range 64).filter (fun i => bb.testBit i)

/-- One iteration of the pawn loop of `Moves::generateMovesPawns` for a given
`from_square` (pushes and promotions, then captures, then en passant). -/
def pawnMovesFrom (b : ChessBoard) (color : Nat) (occ : List Nat) (from_square : Nat) :
    List Nat :=
  let piece := if color = 0 then 0 else 6
  let direction : Int := if color = 0 then -8 else 8
  let to_square : Int := (from_square : Int) + direction
  let promotions : List Nat := if color = 0 then [4, 3, 2, 1] else [10, 9, 8, 7]
  let is_move_push_allowed : Prop := if color = 0 then ¬(to_square < 0) else ¬(to_square > 63)
  let is_promotion_allowed : Prop :=
    if color = 0 then 8 ≤ from_square ∧ from_square ≤ 15
    else 48 ≤ from_square ∧ from_square ≤ 55
  let is_double_allowed : Prop :=
    if color = 0 then 48 ≤ from_square ∧ from_square ≤ 55
    else 8 ≤ from_square ∧ from_square ≤ 15
  let pushes :=
    if is_move_push_allowed ∧ ¬ get_bit (occ.getD 2 0) to_square.toNat then
      if is_promotion_allowed then
        promotions.map (fun pr => encode_move from_square to_square.toNat piece pr 0 0 0 0)
      else
        encode_move from_square to_square.toNat piece 0 0 0 0 0 ::
        (if is_double_allowed ∧ ¬ get_bit (occ.getD 2 0) (to_square + direction).toNat then
           [encode_move from_square (to_square + direction).toNat piece 0 0 1 0 0]
         else [])
    else []
  let attacks := pawn_attacks color from_square &&& occ.getD (color ^^^ 1) 0
  let caps := (bbSquares attacks).bind (fun t =>
    if is_promotion_allowed then
      promotions.map (fun pr => encode_move from_square t piece pr 1 0 0 0)
    else [encode_move from_square t piece 0 1 0 0 0])
  let eps :=
    if b.enpassant ≠ 64 then
      (let enpassant_attacks := pawn_attacks color from_square &&& shl 1 b.enpassant
       if enpassant_attacks ≠ 0 then
         [encode_move from_square (bitScanForward enpassant_attacks) piece 0 1 0 1 0]
       else [])
    else []
  pushes ++ caps ++ eps

/-- chess_moves.cpp `Moves::generateMovesPawns`, as the emitted move sequence. -/
def pawnMoves (b : ChessBoard) (color : Nat) (occ : List Nat) : List Nat :=
  (bbSquares (if color = 0 then b.bitboards.getD 0 0 else b.bitboards.getD 6 0)).bind
    (pawnMovesFrom b color occ)

/-- The non-castling part of `Moves::generateMovesKings` for one king square. -/
def kingMovesFrom (color : Nat) (occ : List Nat) (from_square : Nat) : List Nat :=
  let piece := if color = 0 then 5 else 11
  let attacks := king_attacks from_square &&&
    lnot (if color = 0 then occ.getD 0 0 else occ.getD 1 0)
  (bbSquares attacks).map (fun t =>
    if ¬ get_bit (if color = 0 then occ.getD 1 0 else occ.getD 0 0) t then
      encode_move from_square t piece 0 0 0 0 0
    else encode_move from_square t piece 0 1 0 0 0)

/-- The castling block of `Moves::generateMovesKings` (lines 151-183). -/
def castlingMoves (b : ChessBoard) (color : Nat) : List Nat :=
  let piece := if color = 0 then 5 else 11
  let square_kings_side : Nat := if color = 0 then 61 else 5
  let square_queens_side : Nat := if color = 0 then 59 else 3
  let ks :=
    if b.castling &&& (if color = 0 then 1 else 4) ≠ 0 then
      if ¬ get_bit (b.occupancy.getD 2 0) square_kings_side ∧
         ¬ get_bit (b.occupancy.getD 2 0) (square_kings_side + 1) then
        if isSquareAttacked b (square_kings_side - 1) (color ^^^ 1) = false ∧
           isSquareAttacked b square_kings_side (color ^^^ 1) = false then
          [encode_move (square_kings_side - 1) (square_kings_side + 1) piece 0 0 0 0 1]
        else []
      else []
    else []
  let qs :=
    if b.castling &&& (if color = 0 then 2 else 8) ≠ 0 then
      if ¬ get_bit (b.occupancy.getD 2 0) square_queens_side ∧
         ¬ get_bit (b.occupancy.getD 2 0) (square_queens_side - 1) ∧
         ¬ get_bit (b.occupancy.getD 2 0) (square_queens_side - 2) then
        if isSquareAttacked b (square_queens_side + 1) (color ^^^ 1) = false ∧
           isSquareAttacked b square_queens_side (color ^^^ 1) = false then
          [encode_move (square_queens_side + 1) (square_queens_side - 1) piece 0 0 0 0 1]
        else []
      else []
    else []
  ks ++ qs

/-- chess_moves.cpp `Moves::generateMovesKings`, as the emitted move sequence. -/
def kingMoves (b : ChessBoard) (color : Nat) (occ : List Nat) : List Nat :=
  (bbSquares (if color = 0 then b.bitboards.getD 5 0 else b.bitboards.getD 11 0)).bind
    (kingMovesFrom color occ) ++ castlingMoves b color

/-- One iteration of `Moves::generateMovesPiece` for a given `from_square`
(knights, bishops, rooks, queens; the switch has no case for other pieces). -/
def pieceMovesFrom (occ : List Nat) (piece from_square : Nat) : List Nat :=
  let attacks :=
    if piece = 1 ∨ piece = 7 then knight_attacks from_square
    else if piece = 2 ∨ piece = 8 then getBishopMoves from_square (occ.getD 2 0)
    else if piece = 3 ∨ piece = 9 then getRooksMoves from_square (occ.getD 2 0)
    else if piece = 4 ∨ piece = 10 then getQueensMoves from_square (occ.getD 2 0)
    else 0
  let attacks := attacks &&& lnot (if piece < 6 then occ.getD 0 0 else occ.getD 1 0)
  (bbSquares attacks).map (fun t =>
    if ¬ get_bit (if piece < 6 then occ.getD 1 0 else occ.getD 0 0) t then
      encode_move from_square t piece 0 0 0 0 0
    else encode_move from_square t piece 0 1 0 0 0)

/-- chess_moves.cpp `Moves::generateMovesPiece`, as the emitted move sequence. -/
def pieceMoves (b : ChessBoard) (occ : List Nat) (piece : Nat) : List Nat :=
  (bbSquares (b.bitboards.getD piece 0)).bind (pieceMovesFrom occ piece)

/-- The sequence of moves `Moves::generate_moves` emits (its `add_move` call order):
pawns, kings, then knights, bishops, rooks, queens of the side to move, over the
occupancy copy taken at entry. -/
def genList (b : ChessBoard) : List Nat :=
  let occ := b.occupancy
  if b.color = 0 then
    pawnMoves b 0 occ ++ kingMoves b 0 occ ++
    pieceMoves b occ 1 ++ pieceMoves b occ 2 ++ pieceMoves b occ 3 ++ pieceMoves b occ 4
  else
    pawnMoves b 1 occ ++ kingMoves b 1 occ ++
    pieceMoves b occ 7 ++ pieceMoves b occ 8 ++ pieceMoves b occ 9 ++ pieceMoves b occ 10

-- ==== Move list (chess_moves.h / chess_moves.cpp) ====

/-- chess_moves.h `Moves`: the fixed 265-slot move array and its count. -/
structure Moves where
  moves : List Nat
  moves_count : Nat
deriving DecidableEq, Repr

/-- chess_moves.cpp `Moves::add_move`: store at index `moves_count` and increment
while the count is below 256; otherwise print a diagnostic (not modelled) and leave
the object unchanged. -/
def add_move (ml : Moves) (move : Nat) : Moves :=
  if ml.moves_count < 256 then
    { moves := ml.moves.set ml.moves_count move, moves_count := ml.moves_count + 1 }
  else ml

/-- chess_moves.cpp `Moves::generate_moves`: reset the count to 0 and emit the
generated sequence through `add_move` into the existing array. -/
def generate_moves (b : ChessBoard) (ml : Moves) : Moves :=
  (genList b).foldl add_move { ml with moves_count := 0 }

-- ==== parseMove (chess_game.cpp) ====

/-- The source square the move string decodes to in `ChessGame::parseMove`. -/
def strFrom (s : List Char) : Int :=
  (((s.getD 0 (Char.ofNat 0)).toNat : Int) - ('a'.toNat : Int)) +
  ((8 : Int) - (((s.getD 1 (Char.ofNat 0)).toNat : Int) - ('0'.toNat : Int))) * 8

/-- The target square the move string decodes to in `ChessGame::parseMove`. -/
def strTo (s : List Char) : Int :=
  (((s.getD 2 (Char.ofNat 0)).toNat : Int) - ('a'.toNat : Int)) +
  ((8 : Int) - (((s.getD 3 (Char.ofNat 0)).toNat : Int) - ('0'.toNat : Int))) * 8

/-- The scan of `ChessGame::parseMove` over the stored array.  The C range-for
walks all 265 slots of `moves.moves`, not only the first `moves_count`. -/
def parseMoveLoop (from_square to_square : Int) (promo_char : Char) : List Nat → Nat
  | [] => 0
  | m :: rest =>
    if (get_move_source m : Int) = from_square ∧ (get_move_target m : Int) = to_square then
      let promoted_piece := get_move_promoted m
      if promoted_piece ≠ 0 then
        if (promoted_piece = 4 ∨ promoted_piece = 10) ∧ promo_char = 'q' then m
        else if (promoted_piece = 3 ∨ promoted_piece = 9) ∧ promo_char = 'r' then m
        else if (promoted_piece = 2 ∨ promoted_piece = 8) ∧ promo_char = 'b' then m
        else if (promoted_piece = 1 ∨ promoted_piece = 7) ∧ promo_char = 'n' then m
        else parseMoveLoop from_square to_square promo_char rest
      else m
    else parseMoveLoop from_square to_square promo_char rest

/-- chess_game.cpp `ChessGame::parseMove`: regenerate the move list for the current
board, decode the string, and scan the stored array; 0 is the "no move" sentinel.
Returns the move together with the mutated `Moves` object. -/
def parseMove (b : ChessBoard) (ml : Moves) (move_str : List Char) : Nat × Moves :=
  let ml2 := generate_moves b ml
  (parseMoveLoop (strFrom move_str) (strTo move_str) (move_str.getD 4 (Char.ofNat 0))
    ml2.moves, ml2)

-- ==== Evaluate (evaluation.cpp) ====

/-- Modelled from the spec: `evaluation.h` is not among the sources; per the spec
the material table and the five piece-square tables (queens use material only) are
compile-time constants chosen by the implementer, so they are abstracted here as
parameters, together with the vertical-mirror table `MIRROR_SCORE`. -/
structure EvalTables where
  material_score : Nat → Int
  PAWN_SCORE : Nat → Int
  KNIGHT_SCORE : Nat → Int
  BISHOP_SCORE : Nat → Int
  ROOK_SCORE : Nat → Int
  KING_SCORE : Nat → Int
  MIRROR_SCORE : Nat → Nat

/-- evaluation.cpp `Evaluate`: material plus piece-square sums over every piece
bitboard (black positional terms mirrored and subtracted), negated when black is
to move. -/
def Evaluate (t : EvalTables) (b : ChessBoard) : Int :=
  let score := (List.range 12).foldl (fun acc bb_piece =>
    (bbSquares (b.bitboards.getD bb_piece 0)).foldl (fun acc2 square =>
      acc2 + t.material_score bb_piece +
      (if bb_piece = 0 then t.PAWN_SCORE square
       else if bb_piece = 1 then t.KNIGHT_SCORE square
       else if bb_piece = 2 then t.BISHOP_SCORE square
       else if bb_piece = 3 then t.ROOK_SCORE square
       else if bb_piece = 5 then t.KING_SCORE square
       else if bb_piece = 6 then -t.PAWN_SCORE (t.MIRROR_SCORE square)
       else if bb_piece = 7 then -t.KNIGHT_SCORE (t.MIRROR_SCORE square)
       else if bb_piece = 8 then -t.BISHOP_SCORE (t.MIRROR_SCORE square)
       else if bb_piece = 9 then -t.ROOK_SCORE (t.MIRROR_SCORE square)
       else if bb_piece = 11 then -t.KING_SCORE (t.MIRROR_SCORE square)
       else 0)) acc) 0
  if b.color = 0 then score else -score

/-- chess_utils.cpp `countBits` (population count; identical on 64-bit words to
the length of the set-bit list). -/
def countBits (bb : Nat) : Nat := (bbSquares bb).length

-- ==== searchPosition driver loop (evaluation.cpp lines 383-427) ====

/-- The iterative-deepening loop of `searchPosition` with `NegaMax` abstracted as
`f` and the timer never expiring: the list of `(curr_depth, alpha, beta)` argument
triples of the successive `NegaMax` calls.  A score at or outside the window
widens the window to `[-50000, 50000]`; the `continue` then reaches the loop
increment, so the next call is at `curr_depth + 1`. -/
def searchCallsAux (f : Nat → Int → Int → Int) :
    Nat → Nat → Int → Int → List (Nat × Int × Int)
  | 0, _, _, _ => []
  | fuel + 1, curr_depth, alpha, beta =>
    let score := f curr_depth alpha beta
    if score ≤ alpha ∨ score ≥ beta then
      (curr_depth, alpha, beta) :: searchCallsAux f fuel (curr_depth + 1) (-50000) 50000
    else
      (curr_depth, alpha, beta) :: searchCallsAux f fuel (curr_depth + 1) (score - 50) (score + 50)

/-- The `NegaMax` call sequence of `searchPosition` at a given depth limit. -/
def searchCalls (f : Nat → Int → Int → Int) (depth : Nat) : List (Nat × Int × Int) :=
  searchCallsAux f depth 1 (-50000) 50000

-- ==== Concrete positions and moves used by witnesses and counterexamples ====

/-- The standard starting position record. -/
def startFen : List Char :=
  "rnbqkbnr/pppppppp/8/8/8/8/PPPPPPPP/RNBQKBNR w KQkq - 0 1".toList

/-- The standard starting position. -/
def startBoard : ChessBoard := parseFEN startFen

/-- A `Moves` object with a zeroed array. -/
def emptyMoves : Moves := { moves := List.replicate 265 0, moves_count := 0 }

/-- A `Moves` object whose count has reached the 256 cap. -/
def fullMoves : Moves := { moves := List.replicate 265 0, moves_count := 256 }

/-- The double pawn push e2e4. -/
def moveE2E4 : Nat := encode_move 52 36 0 0 0 1 0 0

/-- White bishop on e2 pinned against the king on e1 by the rook on e8. -/
def pinBoard : ChessBoard := parseFEN "k3r3/8/8/8/8/8/4B3/4K3 w - - 0 1".toList

/-- The pseudo-legal but illegal bishop move e2d3 in `pinBoard`. -/
def moveBd3 : Nat := encode_move 52 43 2 0 0 0 0 0

/-- Bare kings: white king e1 to move, black king a8. -/
def kOnlyBoard : ChessBoard := parseFEN "k7/8/8/8/8/8/8/4K3 w - - 0 1".toList

/-- A `Moves` object holding a stale move a4a5 in slot 5, past a count of 20 (the
array persists across `generate_moves` calls, which only reset the count). -/
def staleMoves : Moves :=
  { moves := (List.replicate 265 0).set 5 (encode_move 32 24 0 0 0 0 0 0),
    moves_count := 20 }

/-- Kings and rooks on their home squares, all castling rights, white to move. -/
def castleBoard : ChessBoard := parseFEN "r3k2r/8/8/8/8/8/8/R3K2R w KQkq - 0 1".toList

/-- The white king-side castling move as the generator encodes it. -/
def wksCastle : Nat := encode_move 60 62 5 0 0 0 0 1

/-- The white queen-side castling move as the generator encodes it. -/
def wqsCastle : Nat := encode_move 60 58 5 0 0 0 0 1

/-- The black king-side castling move as the generator encodes it. -/
def bksCastle : Nat := encode_move 4 6 11 0 0 0 0 1

/-- The black queen-side castling move as the generator encodes it. -/
def bqsCastle : Nat := encode_move 4 2 11 0 0 0 0 1

/-- A NegaMax score oracle that falls outside the aspiration window at depth 2:
depth 1 scores 0, every deeper search scores 1000. -/
def negamaxScores (d : Nat) (_alpha _beta : Int) : Int := if d = 1 then 0 else 1000

/-- All-zero evaluation tables (one admissible implementer choice). -/
def zeroTables : EvalTables :=
  { material_score := fun _ => 0, PAWN_SCORE := fun _ => 0, KNIGHT_SCORE := fun _ => 0,
    BISHOP_SCORE := fun _ => 0, ROOK_SCORE := fun _ => 0, KING_SCORE := fun _ => 0,
    MIRROR_SCORE := fun s => s }

/-- A board holding exactly the two kings. -/
def kingsOnlyBoard : ChessBoard :=
  { resetBoard with
    bitboards := [0, 0, 0, 0, 0, shl 1 60, 0, 0, 0, 0, 0, 1],
    occupancy := [shl 1 60, 1, shl 1 60 ||| 1] }

-- ==== Basic lemmas ====

theorem getD_set_ne (l : List Nat) (i j v : Nat) (h : i ≠ j) :
    (l.set i v).getD j 0 = l.getD j 0 := by
  simp [List.getD_eq_getElem?_getD, List.getElem?_set_ne h]

theorem getD_set_self (l : List Nat) (i v : Nat) (h : i < l.length) :
    (l.set i v).getD i 0 = v := by
  simp [List.getD_eq_getElem?_getD, List.getElem?_set, h]

theorem mem_bbSquares_lt {t bb : Nat} (h : t ∈ bbSquares bb) : t < 64 := by
  have := (List.mem_filter.1 h).1
  exact List.mem_range.1 this

-- ==== C6: the aspiration-window recovery ====

theorem searchCallsAux_depths (f : Nat → Int → Int → Int) :
    ∀ (fuel c : Nat) (a b : Int),
      (searchCallsAux f fuel c a b).map Prod.fst = List.range' c fuel := by
  intro fuel
  induction fuel with
  | zero => intro c a b; rfl
  | succ n ih =>
    intro c a b
    rw [searchCallsAux]
    split <;> simp [ih, List.range'_succ]

/-- C6: the claim says a window failure re-runs NegaMax at the same depth.  In the
source the `continue` reaches the loop increment, so every depth is searched exactly
once: the call depths are `1, 2, ..., depth` without repetition, and with the
concrete score oracle `negamaxScores` (aspiration failure at depth 2) the calls go
straight from depth 2 to depth 3 with the widened window. -/
theorem c6_aspiration_no_same_depth_retry :
    (∀ (f : Nat → Int → Int → Int) (depth : Nat),
      (searchCalls f depth).map Prod.fst = List.range' 1 depth) ∧
    searchCalls negamaxScores 3 =
      [(1, -50000, 50000), (2, -50, 50), (3, -50000, 50000)] := by
  constructor
  · intro f depth
    exact searchCallsAux_depths f depth 1 (-50000) 50000
  · rfl

-- ==== C9: evaluation sign flip ====

/-- C9: for a board with one king of each color, flipping only the side to move
negates `Evaluate` (for every admissible choice of the evaluation tables). -/
theorem c9_evaluate_sign_flip (t : EvalTables) (b b2 : ChessBoard)
    (hkw : countBits (b.bitboards.getD 5 0) = 1)
    (hkb : countBits (b.bitboards.getD 11 0) = 1)
    (hflip : (b.color = 0 ∧ b2 = { b with color := 1 }) ∨
             (b.color = 1 ∧ b2 = { b with color := 0 })) :
    Evaluate t b2 = -Evaluate t b := by
  rcases hflip with ⟨hc, rfl⟩ | ⟨hc, rfl⟩ <;> simp [Evaluate, hc]

theorem c9_evaluate_sign_flip_witness :
    countBits (kingsOnlyBoard.bitboards.getD 5 0) = 1 ∧
    countBits (kingsOnlyBoard.bitboards.getD 11 0) = 1 ∧
    Evaluate zeroTables { kingsOnlyBoard with color := 1 } =
      -Evaluate zeroTables kingsOnlyBoard :=
  ⟨by decide, by decide,
    c9_evaluate_sign_flip zeroTables kingsOnlyBoard _ (by decide) (by decide)
      (Or.inl ⟨by decide, rfl⟩)⟩

-- ==== C10: add_move bounds ====

theorem add_move_lt (ml : Moves) (m : Nat) (h : ml.moves_count < 256) :
    add_move ml m =
      { moves := ml.moves.set ml.moves_count m, moves_count := ml.moves_count + 1 } := by
  simp [add_move, h]

theorem add_move_full (ml : Moves) (m : Nat) (h : 256 ≤ ml.moves_count) :
    add_move ml m = ml := by
  simp [add_move, Nat.not_lt.2 h]

theorem foldl_add_move_inv (l : List Nat) (st : Moves) (h : st.moves_count ≤ 256) :
    (l.foldl add_move st).moves_count ≤ 256 ∧
    (l.foldl add_move st).moves.drop 256 = st.moves.drop 256 := by
  induction l generalizing st with
  | nil => exact ⟨h, rfl⟩
  | cons m rest ih =>
    rw [List.foldl_cons]
    by_cases hc : st.moves_count < 256
    · rw [add_move_lt st m hc]
      have step := ih { moves := st.moves.set st.moves_count m,
                        moves_count := st.moves_count + 1 }
        (by show st.moves_count + 1 ≤ 256; omega)
      refine ⟨step.1, ?_⟩
      rw [step.2]
      simp only [List.drop_set, if_pos hc]
    · rw [add_move_full st m (Nat.not_lt.1 hc)]
      exact ih st h

/-- C10: `add_move` below the cap stores at index `moves_count` and increments; at
the cap it changes nothing; and along any `add_move` sequence following
`generate_moves` the count never exceeds 256 and slots from index 256 up (in
particular, anything past index 255) are never written. -/
theorem c10_add_move_bounds (ml : Moves) (m : Nat) (b : ChessBoard) (prev : Moves)
    (adds : List Nat) :
    (ml.moves_count < 256 →
      add_move ml m = { moves := ml.moves.set ml.moves_count m,
                        moves_count := ml.moves_count + 1 }) ∧
    (256 ≤ ml.moves_count → add_move ml m = ml) ∧
    (adds.foldl add_move (generate_moves b prev)).moves_count ≤ 256 ∧
    (adds.foldl add_move (generate_moves b prev)).moves.drop 256 = prev.moves.drop 256 := by
  have hg := foldl_add_move_inv (genList b) { prev with moves_count := 0 }
    (by show (0 : Nat) ≤ 256; omega)
  have h2 := foldl_add_move_inv adds (generate_moves b prev) hg.1
  refine ⟨add_move_lt ml m, add_move_full ml m, h2.1, ?_⟩
  rw [h2.2]
  exact hg.2

-- ==== C3: the occupancy invariant ====

/-- The occupancy invariant of the spec: white and black occupancy are the unions
of the corresponding six piece bitboards, and `occupancy[both]` is their union. -/
def occInvariant (b : ChessBoard) : Prop :=
  b.occupancy.getD 0 0 = occUnion b.bitboards 0 ∧
  b.occupancy.getD 1 0 = occUnion b.bitboards 6 ∧
  b.occupancy.getD 2 0 = b.occupancy.getD 0 0 ||| b.occupancy.getD 1 0

instance (b : ChessBoard) : Decidable (occInvariant b) := by
  unfold occInvariant; infer_instance

/-- C3: `parseFEN` establishes the occupancy invariant on any input, and `MakeMove`
preserves it whether the move is accepted (the occupancies are rebuilt from the
piece bitboards before the legality check) or rejected (the snapshot restore
returns the entry state). -/
theorem c3_occupancy_invariant (fen : List Char) (b : ChessBoard) (m : Nat)
    (h : occInvariant b) :
    occInvariant (parseFEN fen) ∧ occInvariant (MakeMove b m).2 := by
  constructor
  · exact ⟨rfl, rfl, rfl⟩
  · simp only [MakeMove]
    split
    · exact h
    · exact ⟨rfl, rfl, rfl⟩

theorem c3_occupancy_invariant_witness :
    occInvariant startBoard ∧
    occInvariant (parseFEN startFen) ∧ occInvariant (MakeMove startBoard moveE2E4).2 :=
  ⟨by decide, c3_occupancy_invariant startFen startBoard moveE2E4 (by decide)⟩

-- ==== C1: a rejected MakeMove leaves the board unchanged ====

/-- C1: whenever `MakeMove` returns not-accepted on a generated move, every field
of the board named by the claim (the twelve piece bitboards, the three occupancy
bitboards, side to move, en-passant square, castling rights and the move counter)
has its pre-call value: the snapshot taken on entry is restored, and `num_moves`
is only incremented on the accepted path. -/
theorem c1_rejected_move_preserves_board (b : ChessBoard) (m : Nat)
    (hm : m ∈ genList b) (hrej : (MakeMove b m).1 = false) :
    (MakeMove b m).2.bitboards = b.bitboards ∧
    (MakeMove b m).2.occupancy = b.occupancy ∧
    (MakeMove b m).2.color = b.color ∧
    (MakeMove b m).2.enpassant = b.enpassant ∧
    (MakeMove b m).2.castling = b.castling ∧
    (MakeMove b m).2.num_moves = b.num_moves := by
  simp only [MakeMove] at hrej ⊢
  split at hrej
  next hc =>
    rw [if_pos hc]
    exact ⟨rfl, rfl, rfl, rfl, rfl, rfl⟩
  next hc =>
    simp at hrej

theorem c1_rejected_move_preserves_board_witness :
    moveBd3 ∈ genList pinBoard ∧ (MakeMove pinBoard moveBd3).1 = false ∧
    (MakeMove pinBoard moveBd3).2.enpassant = pinBoard.enpassant ∧
    (MakeMove pinBoard moveBd3).2.bitboards = pinBoard.bitboards :=
  ⟨by decide, by decide,
    (c1_rejected_move_preserves_board pinBoard moveBd3 (by decide) (by decide)).2.2.2.1,
    (c1_rejected_move_preserves_board pinBoard moveBd3 (by decide) (by decide)).1⟩

-- ==== C2: snapshot; make; restore ====

/-- C2 amended: `copyBoard; MakeMove; revertBoard` on an accepted generated move
restores the twelve piece bitboards, the three occupancies, the side to move, the
en-passant square and the castling rights to their pre-snapshot values, but the
move counter `num_moves` is not part of the snapshot and remains incremented. -/
theorem c2_snapshot_make_restore (b : ChessBoard) (m : Nat)
    (hm : m ∈ genList b)
    (hacc : (MakeMove (copyBoard b) m).1 = true) :
    (revertBoard (MakeMove (copyBoard b) m).2).bitboards = b.bitboards ∧
    (revertBoard (MakeMove (copyBoard b) m).2).occupancy = b.occupancy ∧
    (revertBoard (MakeMove (copyBoard b) m).2).color = b.color ∧
    (revertBoard (MakeMove (copyBoard b) m).2).enpassant = b.enpassant ∧
    (revertBoard (MakeMove (copyBoard b) m).2).castling = b.castling ∧
    (revertBoard (MakeMove (copyBoard b) m).2).num_moves = b.num_moves + 1 := by
  simp only [MakeMove] at hacc ⊢
  split at hacc
  next hc =>
    simp at hacc
  next hc =>
    rw [if_neg hc]
    exact ⟨rfl, rfl, rfl, rfl, rfl, rfl⟩

/-- C2 counterexample: from the start position, snapshot; make e2e4 (accepted);
restore leaves `num_moves` at 1, not its pre-snapshot value 0, so the board is not
bitwise-identical to the pre-snapshot board. -/
theorem c2_counterexample :
    moveE2E4 ∈ genList startBoard ∧
    (MakeMove (copyBoard startBoard) moveE2E4).1 = true ∧
    (revertBoard (MakeMove (copyBoard startBoard) moveE2E4).2).num_moves ≠
      startBoard.num_moves := by
  exact ⟨by decide, by decide, by decide⟩

theorem c2_snapshot_make_restore_witness :
    moveE2E4 ∈ genList startBoard ∧
    (revertBoard (MakeMove (copyBoard startBoard) moveE2E4).2).bitboards =
      startBoard.bitboards ∧
    (revertBoard (MakeMove (copyBoard startBoard) moveE2E4).2).num_moves =
      startBoard.num_moves + 1 :=
  ⟨by decide,
    (c2_snapshot_make_restore startBoard moveE2E4 (by decide) (by decide)).1,
    (c2_snapshot_make_restore startBoard moveE2E4 (by decide) (by decide)).2.2.2.2.2⟩

theorem c10_add_move_bounds_witness :
    256 ≤ fullMoves.moves_count ∧ add_move fullMoves 9 = fullMoves ∧
    ((List.replicate 300 9).foldl add_move
      (generate_moves kOnlyBoard emptyMoves)).moves_count ≤ 256 := by
  refine ⟨by decide, ?_, ?_⟩
  · exact (c10_add_move_bounds fullMoves 9 kOnlyBoard emptyMoves
      (List.replicate 300 9)).2.1 (by decide)
  · exact (c10_add_move_bounds fullMoves 9 kOnlyBoard emptyMoves
      (List.replicate 300 9)).2.2.1

-- ==== C7: the parseMove sentinel ====

theorem parseMoveLoop_mem (f t : Int) (c : Char) :
    ∀ l : List Nat, parseMoveLoop f t c l = 0 ∨
      (parseMoveLoop f t c l ∈ l ∧ (get_move_source (parseMoveLoop f t c l) : Int) = f ∧
       (get_move_target (parseMoveLoop f t c l) : Int) = t) := by
  intro l
  induction l with
  | nil => exact Or.inl rfl
  | cons m rest ih =>
    by_cases h1 : (get_move_source m : Int) = f ∧ (get_move_target m : Int) = t
    · by_cases hp : get_move_promoted m ≠ 0
      · by_cases hq : (get_move_promoted m = 4 ∨ get_move_promoted m = 10) ∧ c = 'q'
        · rw [parseMoveLoop, if_pos h1, if_pos hp, if_pos hq]
          exact Or.inr ⟨List.mem_cons_self m rest, h1.1, h1.2⟩
        · by_cases hr : (get_move_promoted m = 3 ∨ get_move_promoted m = 9) ∧ c = 'r'
          · rw [parseMoveLoop, if_pos h1, if_pos hp, if_neg hq, if_pos hr]
            exact Or.inr ⟨List.mem_cons_self m rest, h1.1, h1.2⟩
          · by_cases hb : (get_move_promoted m = 2 ∨ get_move_promoted m = 8) ∧ c = 'b'
            · rw [parseMoveLoop, if_pos h1, if_pos hp, if_neg hq, if_neg hr, if_pos hb]
              exact Or.inr ⟨List.mem_cons_self m rest, h1.1, h1.2⟩
            · by_cases hn : (get_move_promoted m = 1 ∨ get_move_promoted m = 7) ∧ c = 'n'
              · rw [parseMoveLoop, if_pos h1, if_pos hp, if_neg hq, if_neg hr, if_neg hb,
                    if_pos hn]
                exact Or.inr ⟨List.mem_cons_self m rest, h1.1, h1.2⟩
              · rw [parseMoveLoop, if_pos h1, if_pos hp, if_neg hq, if_neg hr, if_neg hb,
                    if_neg hn]
                rcases ih with h | ⟨hm, hs, ht⟩
                · exact Or.inl h
                · exact Or.inr ⟨List.mem_cons_of_mem m hm, hs, ht⟩
      · rw [parseMoveLoop, if_pos h1, if_neg hp]
        exact Or.inr ⟨List.mem_cons_self m rest, h1.1, h1.2⟩
    · rw [parseMoveLoop, if_neg h1]
      rcases ih with h | ⟨hm, hs, ht⟩
      · exact Or.inl h
      · exact Or.inr ⟨List.mem_cons_of_mem m hm, hs, ht⟩

theorem parseMoveLoop_none (f t : Int) (c : Char) :
    ∀ l : List Nat,
      (∀ m ∈ l, ¬((get_move_source m : Int) = f ∧ (get_move_target m : Int) = t)) →
      parseMoveLoop f t c l = 0 := by
  intro l
  induction l with
  | nil => intro _; rfl
  | cons m rest ih =>
    intro h
    rw [parseMoveLoop, if_neg (h m (List.mem_cons_self m rest))]
    exact ih (fun x hx => h x (List.mem_cons_of_mem m hx))

/-- C7 amended: `parseMove` scans the whole 265-slot array, not only the first
`moves_count` entries: it returns 0 when no stored slot (stale entries included)
matches the decoded source and target squares, and any nonzero return value is one
of the stored slots. -/
theorem c7_parseMove_array_scan (b : ChessBoard) (ml : Moves) (s : List Char) :
    ((∀ m ∈ (generate_moves b ml).moves,
        ¬((get_move_source m : Int) = strFrom s ∧ (get_move_target m : Int) = strTo s)) →
      (parseMove b ml s).1 = 0) ∧
    ((parseMove b ml s).1 = 0 ∨ (parseMove b ml s).1 ∈ (generate_moves b ml).moves) := by
  constructor
  · intro h
    exact parseMoveLoop_none (strFrom s) (strTo s) (s.getD 4 (Char.ofNat 0))
      (generate_moves b ml).moves h
  · rcases parseMoveLoop_mem (strFrom s) (strTo s) (s.getD 4 (Char.ofNat 0))
      (generate_moves b ml).moves with h | ⟨hm, _, _⟩
    · exact Or.inl h
    · exact Or.inr hm

theorem c7_parseMove_array_scan_witness :
    (∀ m ∈ (generate_moves kOnlyBoard emptyMoves).moves,
      ¬((get_move_source m : Int) = strFrom "h5h6".toList ∧
        (get_move_target m : Int) = strTo "h5h6".toList)) ∧
    (parseMove kOnlyBoard emptyMoves "h5h6".toList).1 = 0 :=
  ⟨by decide,
    (c7_parseMove_array_scan kOnlyBoard emptyMoves "h5h6".toList).1 (by decide)⟩

/-- C7 counterexample: with bare kings (five generated king moves) and a stale move
a4a5 left in slot 5 from an earlier, longer move list, parseMove "a4a5" matches
none of the moves_count generated moves yet returns the stale slot, not the
sentinel 0. -/
theorem c7_counterexample :
    (parseMove kOnlyBoard staleMoves "a4a5".toList).1 =
      encode_move 32 24 0 0 0 0 0 0 ∧
    (parseMove kOnlyBoard staleMoves "a4a5".toList).1 ≠ 0 ∧
    (parseMove kOnlyBoard staleMoves "a4a5".toList).1 ∉ genList kOnlyBoard := by
  exact ⟨by decide, by decide, by decide⟩

-- ==== Bit-scan lemmas ====

theorem bsfAux_testBit (fuel : Nat) : ∀ bb : Nat, bb ≠ 0 → bb < 2 ^ fuel →
    bb.testBit (bsfAux fuel bb) = true := by
  induction fuel with
  | zero => intro bb h0 h1; omega
  | succ n ih =>
    intro bb h0 h1
    rw [bsfAux]
    split
    · next hodd => rw [Nat.testBit_zero]; simpa using hodd
    · next hodd =>
      rw [Nat.testBit_succ]
      refine ih (bb / 2) (by omega) ?_
      have h2 : bb < 2 ^ n * 2 := by rw [← Nat.pow_succ]; exact h1
      exact Nat.div_lt_of_lt_mul (by omega)

theorem bsfAux_lt (fuel : Nat) : ∀ bb : Nat, bb ≠ 0 → bb < 2 ^ fuel →
    bsfAux fuel bb < fuel := by
  induction fuel with
  | zero => intro bb h0 h1; omega
  | succ n ih =>
    intro bb h0 h1
    rw [bsfAux]
    split
    · omega
    · next hodd =>
      have h2 : bb < 2 ^ n * 2 := by rw [← Nat.pow_succ]; exact h1
      have := ih (bb / 2) (by omega) (Nat.div_lt_of_lt_mul (by omega))
      omega

theorem bsrAux_testBit (fuel : Nat) : ∀ bb : Nat, bb ≠ 0 → bb < 2 ^ fuel →
    bb.testBit (bsrAux fuel bb) = true := by
  induction fuel with
  | zero => intro bb h0 h1; omega
  | succ n ih =>
    intro bb h0 h1
    rw [bsrAux]
    split
    · next h2 =>
      rw [Nat.testBit_succ]
      refine ih (bb / 2) (by omega) ?_
      have h3 : bb < 2 ^ n * 2 := by rw [← Nat.pow_succ]; exact h1
      exact Nat.div_lt_of_lt_mul (by omega)
    · next h2 =>
      have : bb = 1 := by omega
      subst this
      rfl

theorem bsrAux_lt (fuel : Nat) : ∀ bb : Nat, bb ≠ 0 → bb < 2 ^ fuel →
    bsrAux fuel bb < fuel := by
  induction fuel with
  | zero => intro bb h0 h1; omega
  | succ n ih =>
    intro bb h0 h1
    rw [bsrAux]
    split
    · next h2 =>
      have h3 : bb < 2 ^ n * 2 := by rw [← Nat.pow_succ]; exact h1
      have := ih (bb / 2) (by omega) (Nat.div_lt_of_lt_mul (by omega))
      omega
    · omega

theorem bitScanForward_testBit {bb : Nat} (h0 : bb ≠ 0) (h1 : bb < U64SIZE) :
    bb.testBit (bitScanForward bb) = true :=
  bsfAux_testBit 64 bb h0 h1

theorem bitScanForward_lt {bb : Nat} (h0 : bb ≠ 0) (h1 : bb < U64SIZE) :
    bitScanForward bb < 64 :=
  bsfAux_lt 64 bb h0 h1

theorem bitScanReverse_testBit {bb : Nat} (h0 : bb ≠ 0) (h1 : bb < U64SIZE) :
    bb.testBit (bitScanReverse bb) = true :=
  bsrAux_testBit 64 bb h0 h1

theorem bitScanReverse_lt {bb : Nat} (h0 : bb ≠ 0) (h1 : bb < U64SIZE) :
    bitScanReverse bb < 64 :=
  bsrAux_lt 64 bb h0 h1

theorem shl_lt (x n : Nat) : shl x n < U64SIZE :=
  Nat.mod_lt _ (by norm_num [U64SIZE])

-- ==== Move-encoding bounds ====

theorem get_move_castling_of_lt {m : Nat} (h : m < 2 ^ 23) : get_move_castling m = 0 := by
  unfold get_move_castling
  have hx : (0x800000 : Nat) = 2 ^ 23 := by norm_num
  rw [hx, Nat.and_two_pow, Nat.testBit_lt_two_pow h]
  rfl

theorem encode_move_lt {f t p pr c d e : Nat} (hf : f < 64) (ht : t < 64) (hp : p < 16)
    (hpr : pr < 16) (hc : c < 2) (hd : d < 2) (he : e < 2) :
    encode_move f t p pr c d e 0 < 2 ^ 23 := by
  unfold encode_move
  have h8 : ∀ x y : Nat, x < 2 ^ 23 → y < 2 ^ 23 → x ||| y < 2 ^ 23 := fun x y hx hy =>
    Nat.or_lt_two_pow hx hy
  refine h8 _ _ (h8 _ _ (h8 _ _ (h8 _ _ (h8 _ _ (h8 _ _ (h8 _ _ ?_ ?_) ?_) ?_) ?_) ?_) ?_) ?_
  all_goals norm_num [Nat.shiftLeft_eq]
  all_goals omega

/-- Every move the non-castling emitters encode has a clear castling flag. -/
theorem castle_flag_zero_of_encode {m f t p pr c d e : Nat}
    (hm : m = encode_move f t p pr c d e 0) (hf : f < 64) (ht : t < 64) (hp : p < 16)
    (hpr : pr < 16) (hc : c < 2) (hd : d < 2) (he : e < 2) :
    get_move_castling m = 0 := by
  subst hm
  exact get_move_castling_of_lt (encode_move_lt hf ht hp hpr hc hd he)

-- ==== C5 and C8: castling generation, encoding and legality ====

theorem castle_flag_zero (f t p pr c d e : Nat) (hf : f < 64) (ht : t < 64) (hp : p < 16)
    (hpr : pr < 16) (hc : c < 2) (hd : d < 2) (he : e < 2) :
    get_move_castling (encode_move f t p pr c d e 0) = 0 :=
  get_move_castling_of_lt (encode_move_lt hf ht hp hpr hc hd he)

theorem pawnMovesFrom_castle_w (b : ChessBoard) (occ : List Nat) (fs : Nat)
    (hfs : fs < 64) {m : Nat} (hm : m ∈ pawnMovesFrom b 0 occ fs) :
    get_move_castling m = 0 := by
  simp only [pawnMovesFrom] at hm
  norm_num at hm
  rcases hm with ⟨hA, hm⟩ | ⟨a, ha, hm⟩ | ⟨hE, hAtt, rfl⟩
  · split at hm
    · next hP =>
      simp only [List.mem_cons, List.not_mem_nil, or_false] at hm
      rcases hm with rfl | rfl | rfl | rfl <;> (apply castle_flag_zero <;> omega)
    · next hP =>
      rcases List.mem_cons.1 hm with rfl | hm
      · apply castle_flag_zero <;> omega
      · split at hm
        · next hD =>
          rcases List.mem_singleton.1 hm with rfl
          apply castle_flag_zero <;> omega
        · next hD => exact absurd hm (List.not_mem_nil m)
  · have ha64 := mem_bbSquares_lt ha
    split at hm
    · next hP =>
      simp only [List.mem_cons, List.not_mem_nil, or_false] at hm
      rcases hm with rfl | rfl | rfl | rfl <;> (apply castle_flag_zero <;> omega)
    · next hP =>
      rcases List.mem_singleton.1 hm with rfl
      apply castle_flag_zero <;> omega
  · have hbsf : bitScanForward (pawn_attacks 0 fs &&& shl 1 b.enpassant) < 64 :=
      bitScanForward_lt hAtt (Nat.and_lt_two_pow _ (shl_lt 1 b.enpassant))
    apply castle_flag_zero <;> omega

theorem pawnMovesFrom_castle_b (b : ChessBoard) (occ : List Nat) (fs : Nat)
    (hfs : fs < 64) {m : Nat} (hm : m ∈ pawnMovesFrom b 1 occ fs) :
    get_move_castling m = 0 := by
  simp only [pawnMovesFrom] at hm
  norm_num at hm
  rcases hm with ⟨hA, hm⟩ | ⟨a, ha, hm⟩ | ⟨hE, hAtt, rfl⟩
  · split at hm
    · next hP =>
      simp only [List.mem_cons, List.not_mem_nil, or_false] at hm
      rcases hm with rfl | rfl | rfl | rfl <;> (apply castle_flag_zero <;> omega)
    · next hP =>
      rcases List.mem_cons.1 hm with rfl | hm
      · apply castle_flag_zero <;> omega
      · split at hm
        · next hD =>
          rcases List.mem_singleton.1 hm with rfl
          apply castle_flag_zero <;> omega
        · next hD => exact absurd hm (List.not_mem_nil m)
  · have ha64 := mem_bbSquares_lt ha
    split at hm
    · next hP =>
      simp only [List.mem_cons, List.not_mem_nil, or_false] at hm
      rcases hm with rfl | rfl | rfl | rfl <;> (apply castle_flag_zero <;> omega)
    · next hP =>
      rcases List.mem_singleton.1 hm with rfl
      apply castle_flag_zero <;> omega
  · have hbsf : bitScanForward (pawn_attacks 1 fs &&& shl 1 b.enpassant) < 64 :=
      bitScanForward_lt hAtt (Nat.and_lt_two_pow _ (shl_lt 1 b.enpassant))
    apply castle_flag_zero <;> omega

theorem kingMovesFrom_castle (color : Nat) (occ : List Nat) (fs : Nat)
    (hfs : fs < 64) {m : Nat} (hm : m ∈ kingMovesFrom color occ fs) :
    get_move_castling m = 0 := by
  have hpiece : (if color = 0 then (5:Nat) else 11) < 16 := by split <;> omega
  simp only [kingMovesFrom] at hm
  rcases List.mem_map.1 hm with ⟨t, ht, rfl⟩
  have ht64 := mem_bbSquares_lt ht
  repeat' split
  all_goals (apply castle_flag_zero <;> omega)

theorem pieceMovesFrom_castle (occ : List Nat) (piece fs : Nat)
    (hp : piece < 16) (hfs : fs < 64) {m : Nat} (hm : m ∈ pieceMovesFrom occ piece fs) :
    get_move_castling m = 0 := by
  simp only [pieceMovesFrom] at hm
  rcases List.mem_map.1 hm with ⟨t, ht, rfl⟩
  have ht64 := mem_bbSquares_lt ht
  repeat' split
  all_goals (apply castle_flag_zero <;> omega)

/-- A generated move with a set castling flag comes from the castling block of the
king generator. -/
theorem genList_castle_shape (b : ChessBoard) {m : Nat} (hm : m ∈ genList b)
    (hc : get_move_castling m ≠ 0) :
    m ∈ castlingMoves b (if b.color = 0 then 0 else 1) := by
  by_cases hcol : b.color = 0
  · rw [if_pos hcol]
    rw [genList, if_pos hcol] at hm
    simp only [kingMoves, List.append_assoc, List.mem_append] at hm
    rcases hm with hm | hm | hm | hm | hm | hm | hm
    · rcases List.mem_bind.1 hm with ⟨fs, hfs, hmf⟩
      exact absurd (pawnMovesFrom_castle_w b _ fs (mem_bbSquares_lt hfs) hmf) hc
    · rcases List.mem_bind.1 hm with ⟨fs, hfs, hmf⟩
      exact absurd (kingMovesFrom_castle _ _ fs (mem_bbSquares_lt hfs) hmf) hc
    · exact hm
    · rcases List.mem_bind.1 hm with ⟨fs, hfs, hmf⟩
      exact absurd (pieceMovesFrom_castle _ _ fs (by omega) (mem_bbSquares_lt hfs) hmf) hc
    · rcases List.mem_bind.1 hm with ⟨fs, hfs, hmf⟩
      exact absurd (pieceMovesFrom_castle _ _ fs (by omega) (mem_bbSquares_lt hfs) hmf) hc
    · rcases List.mem_bind.1 hm with ⟨fs, hfs, hmf⟩
      exact absurd (pieceMovesFrom_castle _ _ fs (by omega) (mem_bbSquares_lt hfs) hmf) hc
    · rcases List.mem_bind.1 hm with ⟨fs, hfs, hmf⟩
      exact absurd (pieceMovesFrom_castle _ _ fs (by omega) (mem_bbSquares_lt hfs) hmf) hc
  · rw [if_neg hcol]
    rw [genList, if_neg hcol] at hm
    simp only [kingMoves, List.append_assoc, List.mem_append] at hm
    rcases hm with hm | hm | hm | hm | hm | hm | hm
    · rcases List.mem_bind.1 hm with ⟨fs, hfs, hmf⟩
      exact absurd (pawnMovesFrom_castle_b b _ fs (mem_bbSquares_lt hfs) hmf) hc
    · rcases List.mem_bind.1 hm with ⟨fs, hfs, hmf⟩
      exact absurd (kingMovesFrom_castle _ _ fs (mem_bbSquares_lt hfs) hmf) hc
    · exact hm
    · rcases List.mem_bind.1 hm with ⟨fs, hfs, hmf⟩
      exact absurd (pieceMovesFrom_castle _ _ fs (by omega) (mem_bbSquares_lt hfs) hmf) hc
    · rcases List.mem_bind.1 hm with ⟨fs, hfs, hmf⟩
      exact absurd (pieceMovesFrom_castle _ _ fs (by omega) (mem_bbSquares_lt hfs) hmf) hc
    · rcases List.mem_bind.1 hm with ⟨fs, hfs, hmf⟩
      exact absurd (pieceMovesFrom_castle _ _ fs (by omega) (mem_bbSquares_lt hfs) hmf) hc
    · rcases List.mem_bind.1 hm with ⟨fs, hfs, hmf⟩
      exact absurd (pieceMovesFrom_castle _ _ fs (by omega) (mem_bbSquares_lt hfs) hmf) hc



/-- The two white castling emissions together with the guards under which the
generator adds them. -/
theorem castlingMoves_mem_w (b : ChessBoard) {m : Nat} (hm : m ∈ castlingMoves b 0) :
    (m = encode_move 60 62 5 0 0 0 0 1 ∧ b.castling &&& 1 ≠ 0 ∧
      get_bit (b.occupancy.getD 2 0) 61 = false ∧ get_bit (b.occupancy.getD 2 0) 62 = false ∧
      isSquareAttacked b 60 1 = false ∧ isSquareAttacked b 61 1 = false) ∨
    (m = encode_move 60 58 5 0 0 0 0 1 ∧ b.castling &&& 2 ≠ 0 ∧
      get_bit (b.occupancy.getD 2 0) 59 = false ∧ get_bit (b.occupancy.getD 2 0) 58 = false ∧
      get_bit (b.occupancy.getD 2 0) 57 = false ∧
      isSquareAttacked b 60 1 = false ∧ isSquareAttacked b 59 1 = false) := by
  simp only [castlingMoves] at hm
  norm_num at hm
  simp only [List.getD_eq_getElem?_getD]
  rcases hm with ⟨h1, ⟨h2, h3⟩, ⟨h4, h5⟩, rfl⟩ | ⟨h1, ⟨h2, h3, h4⟩, ⟨h5, h6⟩, rfl⟩
  · refine Or.inl ⟨rfl, ?_, h2, h3, h4, h5⟩
    rw [Nat.and_one_is_mod]; omega
  · exact Or.inr ⟨rfl, h1, h2, h3, h4, h5, h6⟩

/-- The two black castling emissions together with the guards under which the
generator adds them. -/
theorem castlingMoves_mem_b (b : ChessBoard) {m : Nat} (hm : m ∈ castlingMoves b 1) :
    (m = encode_move 4 6 11 0 0 0 0 1 ∧ b.castling &&& 4 ≠ 0 ∧
      get_bit (b.occupancy.getD 2 0) 5 = false ∧ get_bit (b.occupancy.getD 2 0) 6 = false ∧
      isSquareAttacked b 4 0 = false ∧ isSquareAttacked b 5 0 = false) ∨
    (m = encode_move 4 2 11 0 0 0 0 1 ∧ b.castling &&& 8 ≠ 0 ∧
      get_bit (b.occupancy.getD 2 0) 3 = false ∧ get_bit (b.occupancy.getD 2 0) 2 = false ∧
      get_bit (b.occupancy.getD 2 0) 1 = false ∧
      isSquareAttacked b 4 0 = false ∧ isSquareAttacked b 3 0 = false) := by
  simp only [castlingMoves] at hm
  norm_num at hm
  simp only [List.getD_eq_getElem?_getD]
  rcases hm with ⟨h1, ⟨h2, h3⟩, ⟨h4, h5⟩, rfl⟩ | ⟨h1, ⟨h2, h3, h4⟩, ⟨h5, h6⟩, rfl⟩
  · exact Or.inl ⟨rfl, h1, h2, h3, h4, h5⟩
  · exact Or.inr ⟨rfl, h1, h2, h3, h4, h5, h6⟩

theorem isSquareAttacked_fields (b1 b2 : ChessBoard) (h1 : b1.bitboards = b2.bitboards)
    (h2 : b1.occupancy = b2.occupancy) (s c : Nat) :
    isSquareAttacked b1 s c = isSquareAttacked b2 s c := by
  unfold isSquareAttacked
  rw [h1, h2]

/-- After the mid-state of a castling MakeMove, the mover's king bitboard holds
exactly the destination square (white king side). -/
theorem mid_king_wks (b : ChessBoard) (hlen : b.bitboards.length = 12)
    (hk : b.bitboards.getD 5 0 = shl 1 60) :
    (makeMoveMid b (encode_move 60 62 5 0 0 0 0 1)).bitboards.getD 5 0 = shl 1 62 := by
  have e1 : get_move_source (encode_move 60 62 5 0 0 0 0 1) = 60 := by decide
  have e2 : get_move_target (encode_move 60 62 5 0 0 0 0 1) = 62 := by decide
  have e3 : get_move_piece (encode_move 60 62 5 0 0 0 0 1) = 5 := by decide
  have e4 : get_move_promoted (encode_move 60 62 5 0 0 0 0 1) = 0 := by decide
  have e5 : get_move_capture (encode_move 60 62 5 0 0 0 0 1) = 0 := by decide
  have e6 : get_move_enpassant (encode_move 60 62 5 0 0 0 0 1) = 0 := by decide
  have e7 : get_move_castling (encode_move 60 62 5 0 0 0 0 1) = 8388608 := by decide
  simp only [makeMoveMid, moverColor, e1, e2, e3, e4, e5, e6, e7]
  norm_num [copyBoard, bbSet, bbPop]
  have h5 : (5:Nat) < b.bitboards.length := by omega
  have hk2 : b.bitboards[5] = shl 1 60 := by
    rw [List.getD_eq_getElem?_getD, List.getElem?_eq_getElem h5] at hk
    simpa using hk
  norm_num [List.getElem?_set, List.length_set, hlen]
  rw [hk2]
  decide



/-- As `mid_king_wks`, white queen side. -/
theorem mid_king_wqs (b : ChessBoard) (hlen : b.bitboards.length = 12)
    (hk : b.bitboards.getD 5 0 = shl 1 60) :
    (makeMoveMid b (encode_move 60 58 5 0 0 0 0 1)).bitboards.getD 5 0 = shl 1 58 := by
  have e1 : get_move_source (encode_move 60 58 5 0 0 0 0 1) = 60 := by decide
  have e2 : get_move_target (encode_move 60 58 5 0 0 0 0 1) = 58 := by decide
  have e3 : get_move_piece (encode_move 60 58 5 0 0 0 0 1) = 5 := by decide
  have e4 : get_move_promoted (encode_move 60 58 5 0 0 0 0 1) = 0 := by decide
  have e5 : get_move_capture (encode_move 60 58 5 0 0 0 0 1) = 0 := by decide
  have e6 : get_move_enpassant (encode_move 60 58 5 0 0 0 0 1) = 0 := by decide
  have e7 : get_move_castling (encode_move 60 58 5 0 0 0 0 1) = 8388608 := by decide
  simp only [makeMoveMid, moverColor, e1, e2, e3, e4, e5, e6, e7]
  norm_num [copyBoard, bbSet, bbPop]
  have h5 : (5:Nat) < b.bitboards.length := by omega
  have hk2 : b.bitboards[5] = shl 1 60 := by
    rw [List.getD_eq_getElem?_getD, List.getElem?_eq_getElem h5] at hk
    simpa using hk
  norm_num [List.getElem?_set, List.length_set, hlen]
  rw [hk2]
  decide

/-- As `mid_king_wks`, black king side. -/
theorem mid_king_bks (b : ChessBoard) (hlen : b.bitboards.length = 12)
    (hk : b.bitboards.getD 11 0 = shl 1 4) :
    (makeMoveMid b (encode_move 4 6 11 0 0 0 0 1)).bitboards.getD 11 0 = shl 1 6 := by
  have e1 : get_move_source (encode_move 4 6 11 0 0 0 0 1) = 4 := by decide
  have e2 : get_move_target (encode_move 4 6 11 0 0 0 0 1) = 6 := by decide
  have e3 : get_move_piece (encode_move 4 6 11 0 0 0 0 1) = 11 := by decide
  have e4 : get_move_promoted (encode_move 4 6 11 0 0 0 0 1) = 0 := by decide
  have e5 : get_move_capture (encode_move 4 6 11 0 0 0 0 1) = 0 := by decide
  have e6 : get_move_enpassant (encode_move 4 6 11 0 0 0 0 1) = 0 := by decide
  have e7 : get_move_castling (encode_move 4 6 11 0 0 0 0 1) = 8388608 := by decide
  simp only [makeMoveMid, moverColor, e1, e2, e3, e4, e5, e6, e7]
  norm_num [copyBoard, bbSet, bbPop]
  have h11 : (11:Nat) < b.bitboards.length := by omega
  have hk2 : b.bitboards[11] = shl 1 4 := by
    rw [List.getD_eq_getElem?_getD, List.getElem?_eq_getElem h11] at hk
    simpa using hk
  norm_num [List.getElem?_set, List.length_set, hlen]
  rw [hk2]
  decide

/-- As `mid_king_wks`, black queen side. -/
theorem mid_king_bqs (b : ChessBoard) (hlen : b.bitboards.length = 12)
    (hk : b.bitboards.getD 11 0 = shl 1 4) :
    (makeMoveMid b (encode_move 4 2 11 0 0 0 0 1)).bitboards.getD 11 0 = shl 1 2 := by
  have e1 : get_move_source (encode_move 4 2 11 0 0 0 0 1) = 4 := by decide
  have e2 : get_move_target (encode_move 4 2 11 0 0 0 0 1) = 2 := by decide
  have e3 : get_move_piece (encode_move 4 2 11 0 0 0 0 1) = 11 := by decide
  have e4 : get_move_promoted (encode_move 4 2 11 0 0 0 0 1) = 0 := by decide
  have e5 : get_move_capture (encode_move 4 2 11 0 0 0 0 1) = 0 := by decide
  have e6 : get_move_enpassant (encode_move 4 2 11 0 0 0 0 1) = 0 := by decide
  have e7 : get_move_castling (encode_move 4 2 11 0 0 0 0 1) = 8388608 := by decide
  simp only [makeMoveMid, moverColor, e1, e2, e3, e4, e5, e6, e7]
  norm_num [copyBoard, bbSet, bbPop]
  have h11 : (11:Nat) < b.bitboards.length := by omega
  have hk2 : b.bitboards[11] = shl 1 4 := by
    rw [List.getD_eq_getElem?_getD, List.getElem?_eq_getElem h11] at hk
    simpa using hk
  norm_num [List.getElem?_set, List.length_set, hlen]
  rw [hk2]
  decide

/-- An accepted white king-side castle leaves the king destination unattacked in
the resulting position. -/
theorem castle_dest_safe_wks (b : ChessBoard) (hlen : b.bitboards.length = 12)
    (hk : b.bitboards.getD 5 0 = shl 1 60)
    (hacc : (MakeMove b (encode_move 60 62 5 0 0 0 0 1)).1 = true) :
    isSquareAttacked (MakeMove b (encode_move 60 62 5 0 0 0 0 1)).2 62 1 = false := by
  have hmid := mid_king_wks b hlen hk
  have hb : isThereCheck (makeMoveMid b (encode_move 60 62 5 0 0 0 0 1))
      (moverColor (encode_move 60 62 5 0 0 0 0 1)) =
      isSquareAttacked (makeMoveMid b (encode_move 60 62 5 0 0 0 0 1)) 62 1 := by
    have hcol : moverColor (encode_move 60 62 5 0 0 0 0 1) = 0 := by decide
    rw [hcol]
    unfold isThereCheck
    norm_num
    rw [List.getD_eq_getElem?_getD] at hmid
    rw [hmid]
    have : bitScanForward (shl 1 62) = 62 := by decide
    rw [this]
  simp only [MakeMove] at hacc ⊢
  split at hacc
  · simp at hacc
  · next hc =>
    rw [if_neg hc]
    dsimp only
    have hB0 : isThereCheck (makeMoveMid b (encode_move 60 62 5 0 0 0 0 1))
        (moverColor (encode_move 60 62 5 0 0 0 0 1)) = false := by
      simpa using hc
    rw [hb] at hB0
    exact (isSquareAttacked_fields _
      (makeMoveMid b (encode_move 60 62 5 0 0 0 0 1)) rfl rfl 62 1).trans hB0



/-- As `castle_dest_safe_wks`, white queen side. -/
theorem castle_dest_safe_wqs (b : ChessBoard) (hlen : b.bitboards.length = 12)
    (hk : b.bitboards.getD 5 0 = shl 1 60)
    (hacc : (MakeMove b (encode_move 60 58 5 0 0 0 0 1)).1 = true) :
    isSquareAttacked (MakeMove b (encode_move 60 58 5 0 0 0 0 1)).2 58 1 = false := by
  have hmid := mid_king_wqs b hlen hk
  have hb : isThereCheck (makeMoveMid b (encode_move 60 58 5 0 0 0 0 1))
      (moverColor (encode_move 60 58 5 0 0 0 0 1)) =
      isSquareAttacked (makeMoveMid b (encode_move 60 58 5 0 0 0 0 1)) 58 1 := by
    have hcol : moverColor (encode_move 60 58 5 0 0 0 0 1) = 0 := by decide
    rw [hcol]
    unfold isThereCheck
    norm_num
    rw [List.getD_eq_getElem?_getD] at hmid
    rw [hmid]
    have : bitScanForward (shl 1 58) = 58 := by decide
    rw [this]
  simp only [MakeMove] at hacc ⊢
  split at hacc
  · simp at hacc
  · next hc =>
    rw [if_neg hc]
    dsimp only
    have hB0 : isThereCheck (makeMoveMid b (encode_move 60 58 5 0 0 0 0 1))
        (moverColor (encode_move 60 58 5 0 0 0 0 1)) = false := by
      simpa using hc
    rw [hb] at hB0
    exact (isSquareAttacked_fields _
      (makeMoveMid b (encode_move 60 58 5 0 0 0 0 1)) rfl rfl 58 1).trans hB0

/-- As `castle_dest_safe_wks`, black king side. -/
theorem castle_dest_safe_bks (b : ChessBoard) (hlen : b.bitboards.length = 12)
    (hk : b.bitboards.getD 11 0 = shl 1 4)
    (hacc : (MakeMove b (encode_move 4 6 11 0 0 0 0 1)).1 = true) :
    isSquareAttacked (MakeMove b (encode_move 4 6 11 0 0 0 0 1)).2 6 0 = false := by
  have hmid := mid_king_bks b hlen hk
  have hb : isThereCheck (makeMoveMid b (encode_move 4 6 11 0 0 0 0 1))
      (moverColor (encode_move 4 6 11 0 0 0 0 1)) =
      isSquareAttacked (makeMoveMid b (encode_move 4 6 11 0 0 0 0 1)) 6 0 := by
    have hcol : moverColor (encode_move 4 6 11 0 0 0 0 1) = 1 := by decide
    rw [hcol]
    unfold isThereCheck
    norm_num
    rw [List.getD_eq_getElem?_getD] at hmid
    rw [hmid]
    have : bitScanForward (shl 1 6) = 6 := by decide
    rw [this]
  simp only [MakeMove] at hacc ⊢
  split at hacc
  · simp at hacc
  · next hc =>
    rw [if_neg hc]
    dsimp only
    have hB0 : isThereCheck (makeMoveMid b (encode_move 4 6 11 0 0 0 0 1))
        (moverColor (encode_move 4 6 11 0 0 0 0 1)) = false := by
      simpa using hc
    rw [hb] at hB0
    exact (isSquareAttacked_fields _
      (makeMoveMid b (encode_move 4 6 11 0 0 0 0 1)) rfl rfl 6 0).trans hB0

/-- As `castle_dest_safe_wks`, black queen side. -/
theorem castle_dest_safe_bqs (b : ChessBoard) (hlen : b.bitboards.length = 12)
    (hk : b.bitboards.getD 11 0 = shl 1 4)
    (hacc : (MakeMove b (encode_move 4 2 11 0 0 0 0 1)).1 = true) :
    isSquareAttacked (MakeMove b (encode_move 4 2 11 0 0 0 0 1)).2 2 0 = false := by
  have hmid := mid_king_bqs b hlen hk
  have hb : isThereCheck (makeMoveMid b (encode_move 4 2 11 0 0 0 0 1))
      (moverColor (encode_move 4 2 11 0 0 0 0 1)) =
      isSquareAttacked (makeMoveMid b (encode_move 4 2 11 0 0 0 0 1)) 2 0 := by
    have hcol : moverColor (encode_move 4 2 11 0 0 0 0 1) = 1 := by decide
    rw [hcol]
    unfold isThereCheck
    norm_num
    rw [List.getD_eq_getElem?_getD] at hmid
    rw [hmid]
    have : bitScanForward (shl 1 2) = 2 := by decide
    rw [this]
  simp only [MakeMove] at hacc ⊢
  split at hacc
  · simp at hacc
  · next hc =>
    rw [if_neg hc]
    dsimp only
    have hB0 : isThereCheck (makeMoveMid b (encode_move 4 2 11 0 0 0 0 1))
        (moverColor (encode_move 4 2 11 0 0 0 0 1)) = false := by
      simpa using hc
    rw [hb] at hB0
    exact (isSquareAttacked_fields _
      (makeMoveMid b (encode_move 4 2 11 0 0 0 0 1)) rfl rfl 2 0).trans hB0



/-- C5: a castling move is generated only when the side holds the castling-rights
bit, the squares between king and rook are empty, and neither the king's origin nor
the traversed square is attacked (the destination is not tested at generation
time); and when MakeMove accepts a generated castling move, the king's destination
square is not attacked in the resulting position, so a castling move is applied
only when none of the three squares the king touches is attacked. -/
theorem c5_castling_guards_and_legality (b : ChessBoard) (m : Nat)
    (hm : m ∈ genList b) (hcas : get_move_castling m ≠ 0)
    (hlen : b.bitboards.length = 12)
    (hk : b.bitboards.getD (if b.color = 0 then 5 else 11) 0 = shl 1 (get_move_source m)) :
    (if b.color = 0 then
        (m = encode_move 60 62 5 0 0 0 0 1 ∧ b.castling &&& 1 ≠ 0 ∧
          get_bit (b.occupancy.getD 2 0) 61 = false ∧
          get_bit (b.occupancy.getD 2 0) 62 = false ∧
          isSquareAttacked b 60 1 = false ∧ isSquareAttacked b 61 1 = false) ∨
        (m = encode_move 60 58 5 0 0 0 0 1 ∧ b.castling &&& 2 ≠ 0 ∧
          get_bit (b.occupancy.getD 2 0) 59 = false ∧
          get_bit (b.occupancy.getD 2 0) 58 = false ∧
          get_bit (b.occupancy.getD 2 0) 57 = false ∧
          isSquareAttacked b 60 1 = false ∧ isSquareAttacked b 59 1 = false)
      else
        (m = encode_move 4 6 11 0 0 0 0 1 ∧ b.castling &&& 4 ≠ 0 ∧
          get_bit (b.occupancy.getD 2 0) 5 = false ∧
          get_bit (b.occupancy.getD 2 0) 6 = false ∧
          isSquareAttacked b 4 0 = false ∧ isSquareAttacked b 5 0 = false) ∨
        (m = encode_move 4 2 11 0 0 0 0 1 ∧ b.castling &&& 8 ≠ 0 ∧
          get_bit (b.occupancy.getD 2 0) 3 = false ∧
          get_bit (b.occupancy.getD 2 0) 2 = false ∧
          get_bit (b.occupancy.getD 2 0) 1 = false ∧
          isSquareAttacked b 4 0 = false ∧ isSquareAttacked b 3 0 = false)) ∧
    ((MakeMove b m).1 = true →
      isSquareAttacked (MakeMove b m).2 (get_move_target m)
        (if b.color = 0 then 1 else 0) = false) := by
  have hshape := genList_castle_shape b hm hcas
  by_cases hcol : b.color = 0
  · rw [if_pos hcol] at hshape
    rw [if_pos hcol] at hk
    rcases castlingMoves_mem_w b hshape with ⟨hmeq, hg⟩ | ⟨hmeq, hg⟩ <;> subst hmeq
    · refine ⟨by rw [if_pos hcol]; exact Or.inl ⟨rfl, hg⟩, fun hacc => ?_⟩
      have ht : get_move_target (encode_move 60 62 5 0 0 0 0 1) = 62 := by decide
      have hs : get_move_source (encode_move 60 62 5 0 0 0 0 1) = 60 := by decide
      rw [ht, if_pos hcol]
      rw [hs] at hk
      exact castle_dest_safe_wks b hlen hk hacc
    · refine ⟨by rw [if_pos hcol]; exact Or.inr ⟨rfl, hg⟩, fun hacc => ?_⟩
      have ht : get_move_target (encode_move 60 58 5 0 0 0 0 1) = 58 := by decide
      have hs : get_move_source (encode_move 60 58 5 0 0 0 0 1) = 60 := by decide
      rw [ht, if_pos hcol]
      rw [hs] at hk
      exact castle_dest_safe_wqs b hlen hk hacc
  · rw [if_neg hcol] at hshape
    rw [if_neg hcol] at hk
    rcases castlingMoves_mem_b b hshape with ⟨hmeq, hg⟩ | ⟨hmeq, hg⟩ <;> subst hmeq
    · refine ⟨by rw [if_neg hcol]; exact Or.inl ⟨rfl, hg⟩, fun hacc => ?_⟩
      have ht : get_move_target (encode_move 4 6 11 0 0 0 0 1) = 6 := by decide
      have hs : get_move_source (encode_move 4 6 11 0 0 0 0 1) = 4 := by decide
      rw [ht, if_neg hcol]
      rw [hs] at hk
      exact castle_dest_safe_bks b hlen hk hacc
    · refine ⟨by rw [if_neg hcol]; exact Or.inr ⟨rfl, hg⟩, fun hacc => ?_⟩
      have ht : get_move_target (encode_move 4 2 11 0 0 0 0 1) = 2 := by decide
      have hs : get_move_source (encode_move 4 2 11 0 0 0 0 1) = 4 := by decide
      rw [ht, if_neg hcol]
      rw [hs] at hk
      exact castle_dest_safe_bqs b hlen hk hacc

theorem c5_castling_guards_and_legality_witness :
    wksCastle ∈ genList castleBoard ∧ get_move_castling wksCastle ≠ 0 ∧
    castleBoard.bitboards.length = 12 ∧
    (castleBoard.bitboards.getD (if castleBoard.color = 0 then 5 else 11) 0 =
      shl 1 (get_move_source wksCastle)) ∧
    ((MakeMove castleBoard wksCastle).1 = true →
      isSquareAttacked (MakeMove castleBoard wksCastle).2 (get_move_target wksCastle)
        (if castleBoard.color = 0 then 1 else 0) = false) :=
  ⟨by decide, by decide, by decide, by decide,
    (c5_castling_guards_and_legality castleBoard wksCastle (by decide) (by decide)
      (by decide) (by decide)).2⟩

/-- C8 amended: the castling moves are encoded with source f-square−1 (king side)
or d-square+1 (queen side), which in both cases is the king's own home square
(e1 or e8); for a board whose castling king stands there, get_move_source equals
the king's square as found by bitScanForward. -/
theorem c8_castle_source_is_king_square (b : ChessBoard) (m : Nat)
    (hm : m ∈ genList b) (hcas : get_move_castling m ≠ 0)
    (hk : b.bitboards.getD (if b.color = 0 then 5 else 11) 0 =
          shl 1 (if b.color = 0 then 60 else 4)) :
    get_move_source m = (if b.color = 0 then 60 else 4) ∧
    get_move_source m =
      bitScanForward (b.bitboards.getD (if b.color = 0 then 5 else 11) 0) := by
  have hshape := genList_castle_shape b hm hcas
  by_cases hcol : b.color = 0
  · simp only [if_pos hcol] at hshape hk ⊢
    have hbsf : bitScanForward (b.bitboards.getD 5 0) = 60 := by
      rw [hk]; decide
    rcases castlingMoves_mem_w b hshape with ⟨hmeq, -⟩ | ⟨hmeq, -⟩ <;> subst hmeq <;>
      exact ⟨by decide, by rw [hbsf]; decide⟩
  · simp only [if_neg hcol] at hshape hk ⊢
    have hbsf : bitScanForward (b.bitboards.getD 11 0) = 4 := by
      rw [hk]; decide
    rcases castlingMoves_mem_b b hshape with ⟨hmeq, -⟩ | ⟨hmeq, -⟩ <;> subst hmeq <;>
      exact ⟨by decide, by rw [hbsf]; decide⟩

theorem c8_castle_source_is_king_square_witness :
    wksCastle ∈ genList castleBoard ∧ get_move_castling wksCastle ≠ 0 ∧
    get_move_source wksCastle = (if castleBoard.color = 0 then 60 else 4) :=
  ⟨by decide, by decide,
    (c8_castle_source_is_king_square castleBoard wksCastle (by decide) (by decide)
      (by decide)).1⟩

/-- C8 counterexample: in `castleBoard` the generated white king-side castling move
has source square 60 = e1, which is exactly the castling king's square, so the
encoded source is not "a non-king square one file away from the king". -/
theorem c8_counterexample :
    wksCastle ∈ genList castleBoard ∧ get_move_castling wksCastle ≠ 0 ∧
    castleBoard.bitboards.getD 5 0 = shl 1 60 ∧
    get_move_source wksCastle = bitScanForward (castleBoard.bitboards.getD 5 0) := by
  exact ⟨by decide, by decide, by decide, by decide⟩

-- ==== C4: classical sliding attacks ====

/-- No ray contains its own origin square. -/
theorem rays_not_self : ∀ d < 8, ∀ s < 64, (rays d s).testBit s = false := by decide

/-- Every ray bitboard fits in a 64-bit word. -/
theorem rays_lt : ∀ d < 8, ∀ s < 64, rays d s < U64SIZE := by decide

/-- A ray continues within itself: the ray from any of its squares is a subset. -/
theorem rays_sub : ∀ d < 8, ∀ s < 64, ∀ j < 64,
    (rays d s).testBit j = true → rays d j &&& lnot (rays d s) = 0 := by decide

/-- Rays in distinct directions from one square are disjoint. -/
theorem rays_disj : ∀ d < 8, ∀ e < 8, d ≠ e → ∀ s < 64, rays d s &&& rays e s = 0 := by
  decide



theorem testBit_of_and_eq_zero {x y : Nat} (h : x &&& y = 0) {i : Nat}
    (hx : x.testBit i = true) : y.testBit i = false := by
  have h2 : (x &&& y).testBit i = false := by rw [h]; exact Nat.zero_testBit i
  rw [Nat.testBit_and, hx] at h2
  simpa using h2

theorem and_eq_zero_of_forall {x y : Nat}
    (h : ∀ i, x.testBit i = true → y.testBit i = false) : x &&& y = 0 := by
  apply Nat.eq_of_testBit_eq
  intro i
  rw [Nat.testBit_and, Nat.zero_testBit]
  cases hx : x.testBit i
  · rfl
  · rw [h i hx, Bool.and_false]

theorem testBit_lt_64 {x i : Nat} (hx : x < U64SIZE) (h : x.testBit i = true) : i < 64 := by
  by_contra hc
  rw [Nat.testBit_lt_two_pow
    (lt_of_lt_of_le hx (Nat.pow_le_pow_right (by norm_num) (by omega)))] at h
  cases h

theorem testBit_lnot {x : Nat} (hx : x < U64SIZE) (i : Nat) :
    (lnot x).testBit i = (decide (i < 64) && !(x.testBit i)) := by
  unfold lnot U64SIZE
  rw [Nat.testBit_xor, Nat.testBit_two_pow_sub_one]
  cases hcase : decide (i < 64)
  · have hx64 : x.testBit i = false := by
      apply Nat.testBit_lt_two_pow
      refine lt_of_lt_of_le hx (Nat.pow_le_pow_right (by norm_num) ?_)
      simpa using hcase
    simp [hx64]
  · simp

theorem scan_testBit (rev : Bool) {x : Nat} (h0 : x ≠ 0) (h1 : x < U64SIZE) :
    x.testBit ((if rev then bitScanReverse else bitScanForward) x) = true := by
  cases rev
  · exact bitScanForward_testBit h0 h1
  · exact bitScanReverse_testBit h0 h1

theorem scan_lt (rev : Bool) {x : Nat} (h0 : x ≠ 0) (h1 : x < U64SIZE) :
    (if rev then bitScanReverse else bitScanForward) x < 64 := by
  cases rev
  · exact bitScanForward_lt h0 h1
  · exact bitScanReverse_lt h0 h1

/-- A direction block does not change the attack set outside its own ray: the bits
it adds lie on `rays d s` and the bits it clears lie on the sub-ray from the found
blocker, which stays inside `rays d s`. -/
theorem sliderDirStep_other (B : Nat) (rev : Bool) (d s : Nat) (hd : d < 8) (hs : s < 64)
    (att y : Nat) (hy : y < U64SIZE) (hRy : rays d s &&& y = 0) :
    sliderDirStep B rev d s att &&& y = att &&& y := by
  have hRlt : rays d s < U64SIZE := rays_lt d hd s hs
  unfold sliderDirStep
  split
  · next hblk =>
    have hRBlt : rays d s &&& B < U64SIZE := lt_of_le_of_lt Nat.and_le_left hRlt
    set bl := (if rev then bitScanReverse else bitScanForward) (rays d s &&& B) with hbl
    have hbl64 : bl < 64 := scan_lt rev hblk hRBlt
    have hblR : (rays d s).testBit bl = true := by
      have hmem := scan_testBit rev hblk hRBlt
      rw [← hbl] at hmem
      rw [Nat.testBit_and, Bool.and_eq_true] at hmem
      exact hmem.1
    have hMR : rays d bl &&& lnot (rays d s) = 0 := rays_sub d hd s hs bl hbl64 hblR
    have hMlt : rays d bl < U64SIZE := rays_lt d hd bl hbl64
    have hMy : rays d bl &&& y = 0 := by
      apply and_eq_zero_of_forall
      intro i hi
      have hi64 : i < 64 := testBit_lt_64 hMlt hi
      have hRi : (rays d s).testBit i = true := by
        by_contra hc
        have hcf : (rays d s).testBit i = false := by simpa using hc
        have hln : (lnot (rays d s)).testBit i = true := by
          rw [testBit_lnot hRlt]
          simp [hi64, hcf]
        have hfalse := testBit_of_and_eq_zero hMR hi
        rw [hfalse] at hln
        cases hln
      exact testBit_of_and_eq_zero hRy hRi
    apply Nat.eq_of_testBit_eq
    intro i
    simp only [Nat.testBit_and, Nat.testBit_or]
    cases hyi : y.testBit i
    · simp
    · have hRi : (rays d s).testBit i = false := by
        cases hR2 : (rays d s).testBit i
        · rfl
        · have := testBit_of_and_eq_zero hRy hR2
          rw [hyi] at this
          cases this
      have hMi : (rays d bl).testBit i = false := by
        cases hM2 : (rays d bl).testBit i
        · rfl
        · have := testBit_of_and_eq_zero hMy hM2
          rw [hyi] at this
          cases this
      have hlnM : (lnot (rays d bl)).testBit i = true := by
        rw [testBit_lnot hMlt]
        simp [testBit_lt_64 hy hyi, hMi]
      rw [hRi, hlnM]
      simp
  · next hblk =>
    apply Nat.eq_of_testBit_eq
    intro i
    simp only [Nat.testBit_and, Nat.testBit_or]
    cases hyi : y.testBit i
    · simp
    · have hRi : (rays d s).testBit i = false := by
        cases hR2 : (rays d s).testBit i
        · rfl
        · have := testBit_of_and_eq_zero hRy hR2
          rw [hyi] at this
          cases this
      rw [hRi]
      simp

/-- The projection of a direction block onto its own ray: the full open ray when no
blocker sits on it, else the ray minus the sub-ray past the nearest blocker. -/
theorem sliderDirStep_self (B : Nat) (rev : Bool) (d s : Nat) (hd : d < 8) (hs : s < 64)
    (att : Nat) (hdisj : att &&& rays d s = 0) :
    sliderDirStep B rev d s att &&& rays d s =
      (if rays d s &&& B ≠ 0 then
        rays d s &&& lnot (rays d
          ((if rev then bitScanReverse else bitScanForward) (rays d s &&& B)))
       else rays d s) := by
  have hRlt : rays d s < U64SIZE := rays_lt d hd s hs
  unfold sliderDirStep
  split
  · next hblk =>
    have hRBlt : rays d s &&& B < U64SIZE := lt_of_le_of_lt Nat.and_le_left hRlt
    set bl := (if rev then bitScanReverse else bitScanForward) (rays d s &&& B) with hbl
    have hbl64 : bl < 64 := scan_lt rev hblk hRBlt
    have hMlt : rays d bl < U64SIZE := rays_lt d hd bl hbl64
    apply Nat.eq_of_testBit_eq
    intro i
    simp only [Nat.testBit_and, Nat.testBit_or]
    cases hRi : (rays d s).testBit i
    · simp
    · have hatti : att.testBit i = false := by
        cases ha : att.testBit i
        · rfl
        · have := testBit_of_and_eq_zero hdisj ha
          rw [hRi] at this
          cases this
      rw [hatti]
      simp [Bool.and_comm]
  · next hblk =>
    apply Nat.eq_of_testBit_eq
    intro i
    simp only [Nat.testBit_and, Nat.testBit_or]
    cases hRi : (rays d s).testBit i
    · simp
    · have hatti : att.testBit i = false := by
        cases ha : att.testBit i
        · rfl
        · have := testBit_of_and_eq_zero hdisj ha
          rw [hRi] at this
          cases this
      rw [hatti]
      simp

/-- A direction block keeps the attack set inside the union `U` of processed rays
(once its own ray is inside `U`). -/
theorem sliderDirStep_union (B : Nat) (rev : Bool) (d s : Nat)
    (att U : Nat) (hU : att &&& lnot U = 0) (hRU : rays d s &&& lnot U = 0) :
    sliderDirStep B rev d s att &&& lnot U = 0 := by
  unfold sliderDirStep
  split
  · apply and_eq_zero_of_forall
    intro i hi
    rw [Nat.testBit_and, Nat.testBit_or] at hi
    rw [Bool.and_eq_true] at hi
    rcases hi with ⟨hor, -⟩
    rw [Bool.or_eq_true] at hor
    rcases hor with ha | hr
    · exact testBit_of_and_eq_zero hU ha
    · exact testBit_of_and_eq_zero hRU hr
  · apply and_eq_zero_of_forall
    intro i hi
    rw [Nat.testBit_or, Bool.or_eq_true] at hi
    rcases hi with ha | hr
    · exact testBit_of_and_eq_zero hU ha
    · exact testBit_of_and_eq_zero hRU hr



/-- The per-direction behavior the spec ascribes to the classical sliding lookup:
with no blocker on the ray, the attack set restricted to that ray is the full open
ray; with a blocker, it is the ray minus the sub-ray past the nearest blocker
(located by the stated scan), and the blocker square itself stays in the set. -/
def dirSpecHolds (result dir square : Nat) (useRev : Bool) (blockers : Nat) : Prop :=
  (rays dir square &&& blockers = 0 →
    result &&& rays dir square = rays dir square) ∧
  (rays dir square &&& blockers ≠ 0 →
    result &&& rays dir square =
      rays dir square &&& lnot (rays dir
        ((if useRev then bitScanReverse else bitScanForward) (rays dir square &&& blockers))) ∧
    result.testBit
      ((if useRev then bitScanReverse else bitScanForward)
        (rays dir square &&& blockers)) = true)

theorem dirSpecHolds_of_proj (result d s : Nat) (rev : Bool) (B : Nat)
    (hd : d < 8) (hs : s < 64)
    (hproj : result &&& rays d s =
      (if rays d s &&& B ≠ 0 then
        rays d s &&& lnot (rays d
          ((if rev then bitScanReverse else bitScanForward) (rays d s &&& B)))
       else rays d s)) :
    dirSpecHolds result d s rev B := by
  have hRlt : rays d s < U64SIZE := rays_lt d hd s hs
  have hRBlt : rays d s &&& B < U64SIZE := lt_of_le_of_lt Nat.and_le_left hRlt
  constructor
  · intro h0
    rw [hproj, if_neg (by simp [h0])]
  · intro hblk
    set bl := (if rev then bitScanReverse else bitScanForward) (rays d s &&& B) with hbl
    have hbl64 : bl < 64 := scan_lt rev hblk hRBlt
    have hblR : (rays d s).testBit bl = true := by
      have hmem := scan_testBit rev hblk hRBlt
      rw [← hbl] at hmem
      rw [Nat.testBit_and, Bool.and_eq_true] at hmem
      exact hmem.1
    have hMbl : (rays d bl).testBit bl = false := rays_not_self d hd bl hbl64
    refine ⟨by rw [hproj, if_pos hblk], ?_⟩
    have h1 : (result &&& rays d s).testBit bl = true := by
      rw [hproj, if_pos hblk, Nat.testBit_and, hblR,
        testBit_lnot (rays_lt d hd bl hbl64), hMbl]
      simp [hbl64]
    rw [Nat.testBit_and, Bool.and_eq_true] at h1
    exact h1.1

/-- The projection of `getRooksMoves` onto each of its four rays. -/
theorem getRooksMoves_proj (s B : Nat) (hs : s < 64) :
    dirSpecHolds (getRooksMoves s B) 0 s true B ∧
    dirSpecHolds (getRooksMoves s B) 1 s false B ∧
    dirSpecHolds (getRooksMoves s B) 3 s false B ∧
    dirSpecHolds (getRooksMoves s B) 2 s true B := by
  set a0 := sliderDirStep B true 0 s 0 with ha0
  set a1 := sliderDirStep B false 1 s a0 with ha1
  set a2 := sliderDirStep B false 3 s a1 with ha2
  have hdef : getRooksMoves s B = sliderDirStep B true 2 s a2 := rfl
  refine ⟨?_, ?_, ?_, ?_⟩
  · refine dirSpecHolds_of_proj _ 0 s true B (by norm_num) hs ?_
    rw [hdef]
    rw [sliderDirStep_other B true 2 s (by norm_num) hs a2 (rays 0 s)
      (rays_lt 0 (by norm_num) s hs) (rays_disj 2 (by norm_num) 0 (by norm_num) (by norm_num) s hs)]
    rw [ha2]
    rw [sliderDirStep_other B false 3 s (by norm_num) hs a1 (rays 0 s)
      (rays_lt 0 (by norm_num) s hs) (rays_disj 3 (by norm_num) 0 (by norm_num) (by norm_num) s hs)]
    rw [ha1]
    rw [sliderDirStep_other B false 1 s (by norm_num) hs a0 (rays 0 s)
      (rays_lt 0 (by norm_num) s hs) (rays_disj 1 (by norm_num) 0 (by norm_num) (by norm_num) s hs)]
    rw [ha0]
    exact sliderDirStep_self B true 0 s (by norm_num) hs 0 (Nat.zero_and _)
  · refine dirSpecHolds_of_proj _ 1 s false B (by norm_num) hs ?_
    rw [hdef]
    rw [sliderDirStep_other B true 2 s (by norm_num) hs a2 (rays 1 s)
      (rays_lt 1 (by norm_num) s hs) (rays_disj 2 (by norm_num) 1 (by norm_num) (by norm_num) s hs)]
    rw [ha2]
    rw [sliderDirStep_other B false 3 s (by norm_num) hs a1 (rays 1 s)
      (rays_lt 1 (by norm_num) s hs) (rays_disj 3 (by norm_num) 1 (by norm_num) (by norm_num) s hs)]
    rw [ha1]
    have hz : a0 &&& rays 1 s = 0 := by
      rw [ha0]
      rw [sliderDirStep_other B true 0 s (by norm_num) hs 0 (rays 1 s)
        (rays_lt 1 (by norm_num) s hs) (rays_disj 0 (by norm_num) 1 (by norm_num) (by norm_num) s hs)]
      exact Nat.zero_and _
    exact sliderDirStep_self B false 1 s (by norm_num) hs a0 hz
  · refine dirSpecHolds_of_proj _ 3 s false B (by norm_num) hs ?_
    rw [hdef]
    rw [sliderDirStep_other B true 2 s (by norm_num) hs a2 (rays 3 s)
      (rays_lt 3 (by norm_num) s hs) (rays_disj 2 (by norm_num) 3 (by norm_num) (by norm_num) s hs)]
    rw [ha2]
    have hz : a1 &&& rays 3 s = 0 := by
      rw [ha1]
      rw [sliderDirStep_other B false 1 s (by norm_num) hs a0 (rays 3 s)
        (rays_lt 3 (by norm_num) s hs) (rays_disj 1 (by norm_num) 3 (by norm_num) (by norm_num) s hs)]
      rw [ha0]
      rw [sliderDirStep_other B true 0 s (by norm_num) hs 0 (rays 3 s)
        (rays_lt 3 (by norm_num) s hs) (rays_disj 0 (by norm_num) 3 (by norm_num) (by norm_num) s hs)]
      exact Nat.zero_and _
    exact sliderDirStep_self B false 3 s (by norm_num) hs a1 hz
  · refine dirSpecHolds_of_proj _ 2 s true B (by norm_num) hs ?_
    rw [hdef]
    have hz : a2 &&& rays 2 s = 0 := by
      rw [ha2]
      rw [sliderDirStep_other B false 3 s (by norm_num) hs a1 (rays 2 s)
        (rays_lt 2 (by norm_num) s hs) (rays_disj 3 (by norm_num) 2 (by norm_num) (by norm_num) s hs)]
      rw [ha1]
      rw [sliderDirStep_other B false 1 s (by norm_num) hs a0 (rays 2 s)
        (rays_lt 2 (by norm_num) s hs) (rays_disj 1 (by norm_num) 2 (by norm_num) (by norm_num) s hs)]
      rw [ha0]
      rw [sliderDirStep_other B true 0 s (by norm_num) hs 0 (rays 2 s)
        (rays_lt 2 (by norm_num) s hs) (rays_disj 0 (by norm_num) 2 (by norm_num) (by norm_num) s hs)]
      exact Nat.zero_and _
    exact sliderDirStep_self B true 2 s (by norm_num) hs a2 hz

/-- The projection of `getBishopMoves` onto each of its four rays. -/
theorem getBishopMoves_proj (s B : Nat) (hs : s < 64) :
    dirSpecHolds (getBishopMoves s B) 4 s true B ∧
    dirSpecHolds (getBishopMoves s B) 5 s true B ∧
    dirSpecHolds (getBishopMoves s B) 7 s false B ∧
    dirSpecHolds (getBishopMoves s B) 6 s false B := by
  set a0 := sliderDirStep B true 4 s 0 with ha0
  set a1 := sliderDirStep B true 5 s a0 with ha1
  set a2 := sliderDirStep B false 7 s a1 with ha2
  have hdef : getBishopMoves s B = sliderDirStep B false 6 s a2 := rfl
  refine ⟨?_, ?_, ?_, ?_⟩
  · refine dirSpecHolds_of_proj _ 4 s true B (by norm_num) hs ?_
    rw [hdef]
    rw [sliderDirStep_other B false 6 s (by norm_num) hs a2 (rays 4 s)
      (rays_lt 4 (by norm_num) s hs) (rays_disj 6 (by norm_num) 4 (by norm_num) (by norm_num) s hs)]
    rw [ha2]
    rw [sliderDirStep_other B false 7 s (by norm_num) hs a1 (rays 4 s)
      (rays_lt 4 (by norm_num) s hs) (rays_disj 7 (by norm_num) 4 (by norm_num) (by norm_num) s hs)]
    rw [ha1]
    rw [sliderDirStep_other B true 5 s (by norm_num) hs a0 (rays 4 s)
      (rays_lt 4 (by norm_num) s hs) (rays_disj 5 (by norm_num) 4 (by norm_num) (by norm_num) s hs)]
    rw [ha0]
    exact sliderDirStep_self B true 4 s (by norm_num) hs 0 (Nat.zero_and _)
  · refine dirSpecHolds_of_proj _ 5 s true B (by norm_num) hs ?_
    rw [hdef]
    rw [sliderDirStep_other B false 6 s (by norm_num) hs a2 (rays 5 s)
      (rays_lt 5 (by norm_num) s hs) (rays_disj 6 (by norm_num) 5 (by norm_num) (by norm_num) s hs)]
    rw [ha2]
    rw [sliderDirStep_other B false 7 s (by norm_num) hs a1 (rays 5 s)
      (rays_lt 5 (by norm_num) s hs) (rays_disj 7 (by norm_num) 5 (by norm_num) (by norm_num) s hs)]
    rw [ha1]
    have hz : a0 &&& rays 5 s = 0 := by
      rw [ha0]
      rw [sliderDirStep_other B true 4 s (by norm_num) hs 0 (rays 5 s)
        (rays_lt 5 (by norm_num) s hs) (rays_disj 4 (by norm_num) 5 (by norm_num) (by norm_num) s hs)]
      exact Nat.zero_and _
    exact sliderDirStep_self B true 5 s (by norm_num) hs a0 hz
  · refine dirSpecHolds_of_proj _ 7 s false B (by norm_num) hs ?_
    rw [hdef]
    rw [sliderDirStep_other B false 6 s (by norm_num) hs a2 (rays 7 s)
      (rays_lt 7 (by norm_num) s hs) (rays_disj 6 (by norm_num) 7 (by norm_num) (by norm_num) s hs)]
    rw [ha2]
    have hz : a1 &&& rays 7 s = 0 := by
      rw [ha1]
      rw [sliderDirStep_other B true 5 s (by norm_num) hs a0 (rays 7 s)
        (rays_lt 7 (by norm_num) s hs) (rays_disj 5 (by norm_num) 7 (by norm_num) (by norm_num) s hs)]
      rw [ha0]
      rw [sliderDirStep_other B true 4 s (by norm_num) hs 0 (rays 7 s)
        (rays_lt 7 (by norm_num) s hs) (rays_disj 4 (by norm_num) 7 (by norm_num) (by norm_num) s hs)]
      exact Nat.zero_and _
    exact sliderDirStep_self B false 7 s (by norm_num) hs a1 hz
  · refine dirSpecHolds_of_proj _ 6 s false B (by norm_num) hs ?_
    rw [hdef]
    have hz : a2 &&& rays 6 s = 0 := by
      rw [ha2]
      rw [sliderDirStep_other B false 7 s (by norm_num) hs a1 (rays 6 s)
        (rays_lt 6 (by norm_num) s hs) (rays_disj 7 (by norm_num) 6 (by norm_num) (by norm_num) s hs)]
      rw [ha1]
      rw [sliderDirStep_other B true 5 s (by norm_num) hs a0 (rays 6 s)
        (rays_lt 6 (by norm_num) s hs) (rays_disj 5 (by norm_num) 6 (by norm_num) (by norm_num) s hs)]
      rw [ha0]
      rw [sliderDirStep_other B true 4 s (by norm_num) hs 0 (rays 6 s)
        (rays_lt 6 (by norm_num) s hs) (rays_disj 4 (by norm_num) 6 (by norm_num) (by norm_num) s hs)]
      exact Nat.zero_and _
    exact sliderDirStep_self B false 6 s (by norm_num) hs a2 hz



theorem and_lnot_of_sub {x U : Nat} (hU : U < U64SIZE)
    (h : ∀ i, x.testBit i = true → U.testBit i = true) : x &&& lnot U = 0 := by
  apply and_eq_zero_of_forall
  intro i hi
  rw [testBit_lnot hU, h i hi]
  simp

theorem slider_union_sub (s B : Nat) (hs : s < 64) :
    getRooksMoves s B &&& lnot (rays 0 s ||| rays 1 s ||| rays 3 s ||| rays 2 s) = 0 ∧
    getBishopMoves s B &&& lnot (rays 4 s ||| rays 5 s ||| rays 7 s ||| rays 6 s) = 0 := by
  constructor
  · have hU : rays 0 s ||| rays 1 s ||| rays 3 s ||| rays 2 s < U64SIZE := by
      refine Nat.or_lt_two_pow (Nat.or_lt_two_pow (Nat.or_lt_two_pow ?_ ?_) ?_) ?_ <;>
        exact rays_lt _ (by norm_num) s hs
    have h0 : rays 0 s &&& lnot (rays 0 s ||| rays 1 s ||| rays 3 s ||| rays 2 s) = 0 :=
      and_lnot_of_sub hU (fun i hi => by simp [Nat.testBit_or, hi])
    have h1 : rays 1 s &&& lnot (rays 0 s ||| rays 1 s ||| rays 3 s ||| rays 2 s) = 0 :=
      and_lnot_of_sub hU (fun i hi => by simp [Nat.testBit_or, hi])
    have h3 : rays 3 s &&& lnot (rays 0 s ||| rays 1 s ||| rays 3 s ||| rays 2 s) = 0 :=
      and_lnot_of_sub hU (fun i hi => by simp [Nat.testBit_or, hi])
    have h2 : rays 2 s &&& lnot (rays 0 s ||| rays 1 s ||| rays 3 s ||| rays 2 s) = 0 :=
      and_lnot_of_sub hU (fun i hi => by simp [Nat.testBit_or, hi])
    refine sliderDirStep_union B true 2 s _ _ ?_ h2
    refine sliderDirStep_union B false 3 s _ _ ?_ h3
    refine sliderDirStep_union B false 1 s _ _ ?_ h1
    refine sliderDirStep_union B true 0 s _ _ ?_ h0
    rw [Nat.zero_and]
  · have hU : rays 4 s ||| rays 5 s ||| rays 7 s ||| rays 6 s < U64SIZE := by
      refine Nat.or_lt_two_pow (Nat.or_lt_two_pow (Nat.or_lt_two_pow ?_ ?_) ?_) ?_ <;>
        exact rays_lt _ (by norm_num) s hs
    have h4 : rays 4 s &&& lnot (rays 4 s ||| rays 5 s ||| rays 7 s ||| rays 6 s) = 0 :=
      and_lnot_of_sub hU (fun i hi => by simp [Nat.testBit_or, hi])
    have h5 : rays 5 s &&& lnot (rays 4 s ||| rays 5 s ||| rays 7 s ||| rays 6 s) = 0 :=
      and_lnot_of_sub hU (fun i hi => by simp [Nat.testBit_or, hi])
    have h7 : rays 7 s &&& lnot (rays 4 s ||| rays 5 s ||| rays 7 s ||| rays 6 s) = 0 :=
      and_lnot_of_sub hU (fun i hi => by simp [Nat.testBit_or, hi])
    have h6 : rays 6 s &&& lnot (rays 4 s ||| rays 5 s ||| rays 7 s ||| rays 6 s) = 0 :=
      and_lnot_of_sub hU (fun i hi => by simp [Nat.testBit_or, hi])
    refine sliderDirStep_union B false 6 s _ _ ?_ h6
    refine sliderDirStep_union B false 7 s _ _ ?_ h7
    refine sliderDirStep_union B true 5 s _ _ ?_ h5
    refine sliderDirStep_union B true 4 s _ _ ?_ h4
    rw [Nat.zero_and]

/-- C4: for every square and every 64-bit occupancy, getRooksMoves and
getBishopMoves give, per direction, the full open ray when no blocker is on it and
otherwise the ray with everything past the nearest blocker cleared while the
blocker square itself stays — the nearest blocker found with bitScanForward for
DOWN, RIGHT, DOWNLEFT, DOWNRIGHT and bitScanReverse for UP, LEFT, UPLEFT, UPRIGHT;
nothing outside the four rays appears, and getQueensMoves is the union of the rook
and bishop sets. -/
theorem c4_sliding_attacks (s B : Nat) (hs : s < 64) (hB : B < U64SIZE) :
    dirSpecHolds (getRooksMoves s B) 0 s true B ∧
    dirSpecHolds (getRooksMoves s B) 1 s false B ∧
    dirSpecHolds (getRooksMoves s B) 3 s false B ∧
    dirSpecHolds (getRooksMoves s B) 2 s true B ∧
    dirSpecHolds (getBishopMoves s B) 4 s true B ∧
    dirSpecHolds (getBishopMoves s B) 5 s true B ∧
    dirSpecHolds (getBishopMoves s B) 7 s false B ∧
    dirSpecHolds (getBishopMoves s B) 6 s false B ∧
    getQueensMoves s B = getRooksMoves s B ||| getBishopMoves s B ∧
    getRooksMoves s B &&& lnot (rays 0 s ||| rays 1 s ||| rays 3 s ||| rays 2 s) = 0 ∧
    getBishopMoves s B &&& lnot (rays 4 s ||| rays 5 s ||| rays 7 s ||| rays 6 s) = 0 := by
  obtain ⟨r0, r1, r3, r2⟩ := getRooksMoves_proj s B hs
  obtain ⟨b4, b5, b7, b6⟩ := getBishopMoves_proj s B hs
  obtain ⟨u1, u2⟩ := slider_union_sub s B hs
  exact ⟨r0, r1, r3, r2, b4, b5, b7, b6, rfl, u1, u2⟩

theorem c4_sliding_attacks_witness :
    (35 : Nat) < 64 ∧ shl 1 27 ||| shl 1 59 < U64SIZE ∧
    getQueensMoves 35 (shl 1 27 ||| shl 1 59) =
      getRooksMoves 35 (shl 1 27 ||| shl 1 59) |||
      getBishopMoves 35 (shl 1 27 ||| shl 1 59) :=
  ⟨by decide, by decide,
    (c4_sliding_attacks 35 (shl 1 27 ||| shl 1 59) (by decide) (by decide)).2.2.2.2.2.2.2.2.1⟩

end Triglav
